import Mathlib

/-!
# Verification of the vulcan-ci execution platform

A shallow embedding, in Lean 4, of the parts of the `vulcan-ci` repository
that the specification's claims are about:

* the persistence data model and repository operations
  (`crates/libs/core/src/models/{fragment,chain,worker}.rs`,
   `crates/libs/core/src/repositories/{fragment,chain,worker}.rs`),
* the fragment scheduler
  (`crates/services/worker-orchestrator/src/orchestrator/scheduler.rs`),
* the chain-completion rollup and liveness monitor
  (`crates/services/worker-orchestrator/src/api/handlers.rs`,
   `crates/services/worker-orchestrator/src/orchestrator/health.rs`),
* the fleet-scaling algorithm
  (`crates/services/worker-controller/src/scaler/algorithm.rs`),
* the workflow compiler
  (`crates/chain-parser/src/{ast,parser,service}.rs`,
   `crates/services/chain-parser-api/src/handlers.rs`).

Modelling conventions:

* Rust `Uuid` values are modelled as `Nat`; `Uuid::new_v4()` (a fresh
  identifier) is modelled either as an explicit argument or by a threaded
  fresh-id counter, as noted at each definition.
* `chrono::NaiveDateTime` timestamps are opaque to all the verified logic;
  they are modelled as `Nat` ticks, with `Utc::now()` passed in as a `now`
  argument.
* Rust `i32`/`i64` values are modelled as `Int`.  Overflow does not arise in
  any verified operation (the only arithmetic is `attempt + 1`, which in the
  source is a SQL integer addition that errors rather than wraps).
* A database table is modelled as a `List` of rows; a diesel
  `update(table.find(id))` is modelled as a map over the rows with a matching
  id, returning `none` (diesel's `NotFound`) when no row matches.
* Fallible Rust functions returning `Result` are modelled with
  `Option`/`Except`.
-/

namespace Vulcan

/-! ## Data model: fragments (`crates/libs/core/src/models/fragment.rs`) -/

/-- Status of a fragment (`FragmentStatus` in `models/fragment.rs`). -/
inductive FragmentStatus where
  | active
  | suspended
  | error
  | pending
  | running
  | completed
  | failed
deriving DecidableEq, Repr

/-- `FragmentStatus::is_terminal`: true in the `Completed | Failed` states. -/
def FragmentStatus.is_terminal : FragmentStatus → Bool
  | .completed | .failed => true
  | _ => false

/-- `FragmentStatus::is_pending`. -/
def FragmentStatus.is_pending : FragmentStatus → Bool
  | .pending => true
  | _ => false

/-- `FragmentStatus::is_success`: true only in the `Completed` state. -/
def FragmentStatus.is_success : FragmentStatus → Bool
  | .completed => true
  | _ => false

/-- Type of a fragment (`FragmentType` in `models/fragment.rs`). -/
inductive FragmentType where
  | inline
  | group
deriving DecidableEq, Repr

/-- A fragment row (`Fragment` in `models/fragment.rs`). -/
structure Fragment where
  id : Nat
  chain_id : Nat
  attempt : Int
  status : FragmentStatus
  created_at : Nat
  updated_at : Nat
  parent_fragment_id : Option Nat
  sequence : Int
  fragment_type : FragmentType
  run_script : Option String
  machine : Option String
  is_parallel : Bool
  condition : Option String
  source_url : Option String
  assigned_worker_id : Option Nat
  started_at : Option Nat
  completed_at : Option Nat
  exit_code : Option Int
  error_message : Option String
deriving DecidableEq, Repr

/-- A fragments table. -/
abbrev FragmentDb := List Fragment

/-- `FragmentRepository::find_by_id`: the row with the given primary key. -/
def findFragmentById (db : FragmentDb) (id : Nat) : Option Fragment :=
  db.find? (fun r => r.id == id)

/-- Apply a row update to the fragment with the given id, as diesel's
`update(fragments::table.find(fragment_id)).set(...)...get_result` does:
returns the updated table together with the updated row, or `none`
(diesel `NotFound`) when no row has this id. -/
def updateFragment (db : FragmentDb) (fid : Nat) (upd : Fragment → Fragment) :
    Option (FragmentDb × Fragment) :=
  match findFragmentById db fid with
  | none => none
  | some row =>
      some (db.map (fun r => if r.id == fid then upd r else r), upd row)

/-- The `set` clause of `PgFragmentRepository::start_execution`: status
Running, `assigned_worker_id = Some(worker_id)`, `started_at = Some(now)`. -/
def start_execution_set (now wid : Nat) (f : Fragment) : Fragment :=
  { f with
    status := .running
    assigned_worker_id := some wid
    started_at := some now }

/-- The `set` clause of `PgFragmentRepository::complete_execution`: status
Completed when `exit_code == 0` else Failed, `completed_at`, `exit_code`. -/
def complete_execution_set (now : Nat) (exit_code : Int) (f : Fragment) : Fragment :=
  { f with
    status := if exit_code = 0 then .completed else .failed
    completed_at := some now
    exit_code := some exit_code }

/-- The `set` clause of `PgFragmentRepository::fail_execution`: status Failed,
`completed_at`, `error_message`. -/
def fail_execution_set (now : Nat) (error : String) (f : Fragment) : Fragment :=
  { f with
    status := .failed
    completed_at := some now
    error_message := some error }

/-- The `set` clause of `PgFragmentRepository::reset_for_retry`: status
Pending; `assigned_worker_id`, `started_at`, `completed_at`, `exit_code`,
`error_message` cleared; `attempt := attempt + 1`. -/
def reset_for_retry_set (f : Fragment) : Fragment :=
  { f with
    status := .pending
    assigned_worker_id := none
    started_at := none
    completed_at := none
    exit_code := none
    error_message := none
    attempt := f.attempt + 1 }

/-- `PgFragmentRepository::reset_for_retry` at table level. -/
def reset_for_retry (db : FragmentDb) (fid : Nat) : Option (FragmentDb × Fragment) :=
  updateFragment db fid reset_for_retry_set

/-- `PgFragmentRepository::complete_execution` at table level. -/
def complete_execution (db : FragmentDb) (fid : Nat) (exit_code : Int) (now : Nat) :
    Option (FragmentDb × Fragment) :=
  updateFragment db fid (complete_execution_set now exit_code)

/-- `PgFragmentRepository::fail_execution` at table level. -/
def fail_execution (db : FragmentDb) (fid : Nat) (error : String) (now : Nat) :
    Option (FragmentDb × Fragment) :=
  updateFragment db fid (fail_execution_set now error)

/-- Modelled from the spec: the repository operation
`try_claim(fragment_id, worker_id)` that `Scheduler::find_and_claim_work`
(`orchestrator/scheduler.rs`) calls is not among the provided sources — the
`FragmentRepository` trait in `repositories/fragment.rs` declares only the
unconditional `start_execution`.  Spec §4.1: "try_claim(fragment_id,
worker_id) → fragment? — atomically: if the row's status is Pending,
transition it to Running, set `assigned_worker = worker_id`, set `started`,
increment nothing, return the new row; otherwise return null.  This MUST be a
single conditional update."  The update clause is the one `start_execution`
performs (the cited lines 208–219 of `repositories/fragment.rs`), guarded by
the Pending condition. -/
def try_claim (db : FragmentDb) (fid wid : Nat) (now : Nat) :
    FragmentDb × Option Fragment :=
  match findFragmentById db fid with
  | none => (db, none)
  | some row =>
      if row.status = .pending then
        (db.map (fun r => if r.id == fid then start_execution_set now wid r else r),
         some (start_execution_set now wid row))
      else
        (db, none)

/-! ## Data model: chains (`crates/libs/core/src/models/chain.rs`)

The `ChainStatus` enum in the provided `models/chain.rs` lists only
`Active | Suspended | Error`, but the repository code under
`crates/libs/core/src/repositories/chain.rs` (which is among the sources)
uses `ChainStatus::Running`, `ChainStatus::Completed` and
`ChainStatus::Failed`, and the spec's data model (§3) lists all six values;
the embedding therefore carries all six. -/

/-- Status of a chain. -/
inductive ChainStatus where
  | active
  | suspended
  | error
  | running
  | completed
  | failed
deriving DecidableEq, Repr

/-- Trigger type (`TriggerType` in `models/chain.rs`). -/
inductive TriggerType where
  | tag
  | push
  | pullRequest
  | schedule
  | manual
deriving DecidableEq, Repr

/-- A chain row (`Chain` in `models/chain.rs`). -/
structure Chain where
  id : Nat
  tenant_id : Nat
  status : ChainStatus
  attempt : Int
  created_at : Nat
  updated_at : Nat
  source_file_path : Option String
  repository_url : Option String
  commit_sha : Option String
  branch : Option String
  trigger : Option TriggerType
  trigger_ref : Option String
  default_machine : Option String
  started_at : Option Nat
  completed_at : Option Nat
deriving DecidableEq, Repr

/-- A chains table. -/
abbrev ChainDb := List Chain

/-- Apply a row update to the chain with the given id (diesel
`update(chains::table.find(chain_id))`). -/
def updateChain (db : ChainDb) (cid : Nat) (upd : Chain → Chain) :
    Option (ChainDb × Chain) :=
  match db.find? (fun r => r.id == cid) with
  | none => none
  | some row =>
      some (db.map (fun r => if r.id == cid then upd r else r), upd row)

/-- `PgChainRepository::mark_completed`: status Completed, `completed_at`. -/
def mark_completed (db : ChainDb) (cid : Nat) (now : Nat) : Option (ChainDb × Chain) :=
  updateChain db cid (fun c => { c with status := .completed, completed_at := some now })

/-- `PgChainRepository::mark_failed`: status Failed, `completed_at`. -/
def mark_failed (db : ChainDb) (cid : Nat) (now : Nat) : Option (ChainDb × Chain) :=
  updateChain db cid (fun c => { c with status := .failed, completed_at := some now })

/-- `FragmentRepository::find_by_chain`: all fragments of a chain (no ordering
clause in the source). -/
def find_by_chain (db : FragmentDb) (cid : Nat) : List Fragment :=
  db.filter (fun f => f.chain_id == cid)

/-- `check_chain_completion` (`worker-orchestrator/src/api/handlers.rs`):
reads all fragments of the chain; when every fragment is terminal, marks the
chain Failed if any fragment is not a success, otherwise Completed; when some
fragment is non-terminal it performs no chain update.  Returns the updated
chains table (`none` models a propagated repository error). -/
def check_chain_completion (fdb : FragmentDb) (cdb : ChainDb) (chain_id : Nat)
    (now : Nat) : Option ChainDb :=
  let fragments := find_by_chain fdb chain_id
  let all_complete := fragments.all (fun f => f.status.is_terminal)
  if all_complete then
    let any_failed := fragments.any (fun f => !f.status.is_success)
    if any_failed then
      (mark_failed cdb chain_id now).map Prod.fst
    else
      (mark_completed cdb chain_id now).map Prod.fst
  else
    some cdb

/-! ## Data model: workers (`crates/libs/core/src/models/worker.rs`) -/

/-- Status of a worker. -/
inductive WorkerStatus where
  | active
  | suspended
  | error
deriving DecidableEq, Repr

/-- A worker row (`Worker` in `models/worker.rs`). -/
structure Worker where
  id : Nat
  tenant_id : Nat
  status : WorkerStatus
  created_at : Nat
  updated_at : Nat
  current_chain_id : Option Nat
  previous_chain_id : Option Nat
  next_chain_id : Option Nat
  last_heartbeat_at : Option Nat
  machine_group : Option String
  current_fragment_id : Option Nat
deriving DecidableEq, Repr

/-- A workers table. -/
abbrev WorkerDb := List Worker

/-- Apply a row update to the worker with the given id. -/
def updateWorker (db : WorkerDb) (wid : Nat) (upd : Worker → Worker) :
    Option (WorkerDb × Worker) :=
  match db.find? (fun r => r.id == wid) with
  | none => none
  | some row =>
      some (db.map (fun r => if r.id == wid then upd r else r), upd row)

/-- `PgWorkerRepository::update` applied to a full worker value (the source
writes every mutable column of the given row). -/
def worker_update (db : WorkerDb) (worker : Worker) : Option (WorkerDb × Worker) :=
  updateWorker db worker.id (fun _ => worker)

/-- `PgWorkerRepository::clear_assignment`: `current_fragment_id = None`. -/
def clear_assignment (db : WorkerDb) (wid : Nat) : Option (WorkerDb × Worker) :=
  updateWorker db wid (fun w => { w with current_fragment_id := none })

/-! ## Liveness monitor (`worker-orchestrator/src/orchestrator/health.rs`) -/

/-- The fields of the orchestrator `Config` that `check_worker_health`
consults. -/
structure HealthConfig where
  max_retry_attempts : Int

/-- The per-dead-worker body of `check_worker_health`
(`orchestrator/health.rs`): mark the worker Error; if it holds a
`current_fragment_id`, look the fragment up and either `reset_for_retry` it
(when `attempt < max_retry_attempts`) or `fail_execution` it with the message
"Worker died and max retry attempts exceeded", then clear the worker's
assignment.  `none` models a propagated repository error (`?`). -/
def handle_dead_worker (config : HealthConfig) (fdb : FragmentDb) (wdb : WorkerDb)
    (worker : Worker) (now : Nat) : Option (FragmentDb × WorkerDb) :=
  match worker_update wdb { worker with status := .error } with
  | none => none
  | some (wdb, _) =>
      match worker.current_fragment_id with
      | none => some (fdb, wdb)
      | some fragment_id =>
          let fdb_after : Option FragmentDb :=
            match findFragmentById fdb fragment_id with
            | some fragment =>
                if fragment.attempt < config.max_retry_attempts then
                  (reset_for_retry fdb fragment_id).map Prod.fst
                else
                  (fail_execution fdb fragment_id
                    "Worker died and max retry attempts exceeded" now).map Prod.fst
            | none => some fdb
          match fdb_after with
          | none => none
          | some fdb =>
              match clear_assignment wdb worker.id with
              | none => none
              | some (wdb, _) => some (fdb, wdb)

/-! ## Fleet scaling (`worker-controller/src/scaler/algorithm.rs`)

The source computes over `f64`; the embedding models the float arithmetic as
exact rational arithmetic (`ℚ`), the `as i32` saturating cast of the `ceil`
result explicitly, and the panic of `i32::clamp` when `min > max` as `none`. -/

/-- `ScalingConfig` in `scaler/algorithm.rs` (the three-field struct the
algorithm reads; `target_pending_per_worker` is an `f64`, modelled as `ℚ`). -/
structure ScalingConfig where
  min_replicas : Int
  max_replicas : Int
  target_pending_per_worker : ℚ

/-- Rust's `as i32` cast of a (finite) float: saturates at the `i32` range. -/
def i32_saturate (x : Int) : Int :=
  max (-(2 ^ 31)) (min (2 ^ 31 - 1) x)

/-- Rust's `i32::clamp(lo, hi)`: panics (`none`) when `lo > hi`. -/
def rust_clamp (x lo hi : Int) : Option Int :=
  if lo ≤ hi then some (min (max x lo) hi) else none

/-- `calculate_desired_replicas` (`scaler/algorithm.rs`): `min_replicas` when
`target_pending_per_worker ≤ 0`, otherwise
`ceil(pending / target).clamp(min, max)`. -/
def calculate_desired_replicas (config : ScalingConfig) (pending_fragments : Int) :
    Option Int :=
  if config.target_pending_per_worker ≤ 0 then
    some config.min_replicas
  else
    let raw := i32_saturate
      ⌈(pending_fragments : ℚ) / config.target_pending_per_worker⌉
    rust_clamp raw config.min_replicas config.max_replicas

/-! ## Scheduler queries and eligibility
(`repositories/fragment.rs`, `orchestrator/scheduler.rs`) -/

/-- The SQL `ORDER BY sequence ASC` clause: a stable insertion sort on the
`sequence` column. -/
def insertBySequence (f : Fragment) : List Fragment → List Fragment
  | [] => [f]
  | g :: gs => if f.sequence ≤ g.sequence then f :: g :: gs
               else g :: insertBySequence f gs

/-- Rows sorted by `sequence` ascending. -/
def sortBySequence : List Fragment → List Fragment
  | [] => []
  | f :: fs => insertBySequence f (sortBySequence fs)

/-- `PgFragmentRepository::find_pending_by_machine`: fragments with status
Pending, optionally filtered on the `machine` column, ordered by `sequence`
ascending. -/
def find_pending_by_machine (db : FragmentDb) (machine : Option String) :
    List Fragment :=
  let base := db.filter (fun f => f.status == FragmentStatus.pending)
  let filtered :=
    match machine with
    | some m => base.filter (fun f => f.machine == some m)
    | none => base
  sortBySequence filtered

/-- `PgFragmentRepository::find_siblings`: fragments with the same `chain_id`
and the same parent (`IS NULL` when the parent is `None`), ordered by
`sequence`. -/
def find_siblings (db : FragmentDb) (chain_id : Nat) (parent_id : Option Nat) :
    List Fragment :=
  sortBySequence
    (db.filter (fun f => f.chain_id == chain_id && f.parent_fragment_id == parent_id))

/-- `can_execute_with_siblings` (`orchestrator/scheduler.rs`): a parallel
child is always executable; a sequential one is blocked by any sibling with a
strictly smaller `sequence` that is not terminal. -/
def can_execute_with_siblings (fragment : Fragment) (siblings : List Fragment)
    (is_parallel : Bool) : Bool :=
  if is_parallel then
    true
  else
    siblings.all (fun sibling =>
      !(decide (sibling.sequence < fragment.sequence)) || sibling.status.is_terminal)

/-- The parallelism determination inside `find_and_claim_work`: look up the
parent when there is one and read its `is_parallel` flag, defaulting to
`false` for root-level fragments and for a missing parent row. -/
def scheduler_is_parallel (db : FragmentDb) (fragment : Fragment) : Bool :=
  match fragment.parent_fragment_id with
  | some parent_id =>
      ((findFragmentById db parent_id).map (fun p => p.is_parallel)).getD false
  | none => false

/-- The per-candidate eligibility test of `find_and_claim_work`: load the
candidate's siblings, determine parallelism, and apply
`can_execute_with_siblings`. -/
def fragment_eligible (db : FragmentDb) (fragment : Fragment) : Bool :=
  can_execute_with_siblings fragment
    (find_siblings db fragment.chain_id fragment.parent_fragment_id)
    (scheduler_is_parallel db fragment)

/-! ## New-fragment construction
(`models/fragment.rs` `NewFragment`, `chain-parser/src/service.rs`) -/

/-- A `NewFragment` insert row (`models/fragment.rs`). -/
structure NewFragment where
  id : Nat
  chain_id : Nat
  parent_fragment_id : Option Nat
  sequence : Int
  fragment_type : FragmentType
  run_script : Option String
  machine : Option String
  is_parallel : Bool
  condition : Option String
  source_url : Option String
  attempt : Int
  status : FragmentStatus
deriving DecidableEq, Repr

/-- `NewFragment::inline`: a new Inline fragment with attempt 1 and status
Active.  `Uuid::new_v4()` is modelled by the explicit `id` argument (the
caller in `service.rs` overwrites the id immediately). -/
def NewFragment.inline (id : Nat) (chain_id : Nat) (sequence : Int)
    (run_script : String) : NewFragment :=
  { id := id
    chain_id := chain_id
    parent_fragment_id := none
    sequence := sequence
    fragment_type := .inline
    run_script := some run_script
    machine := none
    is_parallel := false
    condition := none
    source_url := none
    attempt := 1
    status := .active }

/-- `NewFragment::parallel_group`: a new Group fragment with `is_parallel`,
attempt 1 and status Active. -/
def NewFragment.parallel_group (id : Nat) (chain_id : Nat) (sequence : Int) :
    NewFragment :=
  { id := id
    chain_id := chain_id
    parent_fragment_id := none
    sequence := sequence
    fragment_type := .group
    run_script := none
    machine := none
    is_parallel := true
    condition := none
    source_url := none
    attempt := 1
    status := .active }

/-- Inserting a `NewFragment` row into the fragments table: the columns not in
the insert take their defaults (`created_at`/`updated_at` now, execution
columns null). -/
def insertNewFragment (now : Nat) (nf : NewFragment) : Fragment :=
  { id := nf.id
    chain_id := nf.chain_id
    attempt := nf.attempt
    status := nf.status
    created_at := now
    updated_at := now
    parent_fragment_id := nf.parent_fragment_id
    sequence := nf.sequence
    fragment_type := nf.fragment_type
    run_script := nf.run_script
    machine := nf.machine
    is_parallel := nf.is_parallel
    condition := nf.condition
    source_url := nf.source_url
    assigned_worker_id := none
    started_at := none
    completed_at := none
    exit_code := none
    error_message := none }

/-! ## Compiler AST (`chain-parser/src/ast.rs`) -/

/-- `ParsedFragmentType` in `ast.rs`. -/
inductive ParsedFragmentType where
  | inline
  | group
deriving DecidableEq, Repr

/-- `ParsedFragment` in `ast.rs`: a flattened fragment before conversion to a
database row. -/
structure ParsedFragment where
  id : Nat
  parent_id : Option Nat
  sequence : Int
  fragment_type : ParsedFragmentType
  run_script : Option String
  machine : Option String
  is_parallel : Bool
  condition : Option String
  source_url : Option String
deriving DecidableEq, Repr

/-- `ParsedFragment::inline`.  `Uuid::new_v4()` is modelled by the `id`
argument, drawn from the parser's threaded fresh-id counter. -/
def ParsedFragment.inline (id : Nat) (sequence : Int) (run_script : String) :
    ParsedFragment :=
  { id := id
    parent_id := none
    sequence := sequence
    fragment_type := .inline
    run_script := some run_script
    machine := none
    is_parallel := false
    condition := none
    source_url := none }

/-- `ParsedFragment::parallel_group`. -/
def ParsedFragment.parallel_group (id : Nat) (sequence : Int) : ParsedFragment :=
  { id := id
    parent_id := none
    sequence := sequence
    fragment_type := .group
    run_script := none
    machine := none
    is_parallel := true
    condition := none
    source_url := none }

/-- `ParsedChain` in `ast.rs`. -/
structure ParsedChain where
  id : Nat
  triggers : List String
  default_machine : String
  fragments : List ParsedFragment
deriving DecidableEq, Repr

/-! ## Service conversion (`chain-parser/src/service.rs`) -/

/-- `convert_fragment` (`service.rs`): builds the `NewFragment` via
`NewFragment::parallel_group` / `NewFragment::inline` and then overrides id,
parent, `is_parallel` and the optional columns from the parsed fragment.
Status and attempt are never overridden. -/
def convert_fragment (parsed : ParsedFragment) (chain_id : Nat) : NewFragment :=
  let fragment_type : FragmentType :=
    match parsed.fragment_type with
    | .inline => .inline
    | .group => .group
  let fragment :=
    if fragment_type = .group then
      NewFragment.parallel_group parsed.id chain_id parsed.sequence
    else
      NewFragment.inline parsed.id chain_id parsed.sequence
        (parsed.run_script.getD "")
  let fragment := { fragment with
    id := parsed.id
    parent_fragment_id := parsed.parent_id
    is_parallel := parsed.is_parallel }
  let fragment :=
    match parsed.machine with
    | some machine => { fragment with machine := some machine }
    | none => fragment
  let fragment :=
    match parsed.condition with
    | some condition => { fragment with condition := some condition }
    | none => fragment
  match parsed.source_url with
  | some source_url => { fragment with source_url := some source_url }
  | none => fragment

/-- `create_new_fragments` (`service.rs`): convert every parsed fragment. -/
def create_new_fragments (parsed : ParsedChain) (chain_id : Nat) :
    List NewFragment :=
  parsed.fragments.map (fun pf => convert_fragment pf chain_id)

/-- `trigger_type_to_str` (`service.rs`). -/
def trigger_type_to_str : TriggerType → String
  | .tag => "tag"
  | .push => "push"
  | .pullRequest => "pull_request"
  | .schedule => "schedule"
  | .manual => "manual"

/-! ## KDL documents and the workflow compiler (`chain-parser/src/parser.rs`)

KDL textual parsing is an external collaborator (spec §1 keeps "the KDL-style
configuration syntax beyond its schema" out of scope); documents are embedded
in already-parsed form.  A node carries its name, its arguments
(`entry.value().as_string()`, hence `Option String` per entry) and an
optional children block.  The import fetcher is modelled as a finite
association list from URLs to (parsed) documents, exactly the shape of the
repository's `MockFetcher`; a URL outside the list fails to fetch.

The Rust functions recurse through fetched documents, so the embedding
threads a fuel parameter, decremented at every call; exhaustion returns the
artificial `outOfFuel` error, which no theorem below depends on.  The
parser's mutable state — the `Uuid::new_v4()` identifier supply and the
`&mut HashSet<String>` of visited URLs — is threaded explicitly. -/

/-- A parsed KDL node. -/
inductive KdlNode where
  | mk (name : String) (entries : List (Option String))
       (children : Option (List KdlNode))

/-- A parsed KDL document: its top-level nodes. -/
abbrev KdlDocument := List KdlNode

/-- The node's name. -/
def KdlNode.name : KdlNode → String
  | .mk n _ _ => n

/-- The node's entry values, as strings where they are strings. -/
def KdlNode.entries : KdlNode → List (Option String)
  | .mk _ e _ => e

/-- The node's children block, when present. -/
def KdlNode.children : KdlNode → Option (List KdlNode)
  | .mk _ _ c => c

/-- `get_string_value` (`parser.rs`): first argument of the first node with
the given name, when it is a string. -/
def get_string_value (doc : KdlDocument) (node_name : String) : Option String :=
  (doc.find? (fun n => n.name == node_name)).bind
    (fun node => node.entries.head?.bind id)

/-- `get_string_args` (`parser.rs`): all string arguments of the first node
with the given name; `none` when the node is absent or has no string
arguments. -/
def get_string_args (doc : KdlDocument) (node_name : String) :
    Option (List String) :=
  match (doc.find? (fun n => n.name == node_name)).map
      (fun node => node.entries.filterMap id) with
  | some args => if args.isEmpty then none else some args
  | none => none

/-- `ParseError` (`chain-parser/src/error.rs`).  `outOfFuel` is an artifact of
the fuel-indexed embedding, not a source error. -/
inductive ParseError where
  | invalidSyntax (msg : String)
  | missingRequired (field : String) (context : String)
  | invalidUrl (url : String)
  | fetchFailed (url : String) (reason : String)
  | circularImport (url : String)
  | mutualExclusion
  | noContent
  | noMachine
  | unknownNode (name : String)
  | invalidImportNode (name : String)
  | unsupportedVersion (version : String)
  | invalidTrigger (msg : String)
  | outOfFuel
deriving DecidableEq, Repr

/-- The parser's threaded mutable state: the fresh-identifier supply
(modelling `Uuid::new_v4()`) and the visited-URL set of import resolution
(modelling the `&mut HashSet<String>`). -/
structure ParserState where
  next_id : Nat
  visited : List String
deriving DecidableEq, Repr

/-- Draw a fresh identifier. -/
def freshId (st : ParserState) : Nat × ParserState :=
  (st.next_id, { st with next_id := st.next_id + 1 })

/-- An import fetcher: a finite map from URLs to parsed documents (the shape
of the repository's `MockFetcher`). -/
abbrev Fetcher := List (String × KdlDocument)

/-- `ImportFetcher::fetch`, composed with KDL parsing of the fetched text. -/
def fetch (fetcher : Fetcher) (url : String) : Option KdlDocument :=
  (fetcher.find? (fun p => p.1 == url)).map Prod.snd

/-- The result of a parser step: the state after it, and its fragments or
error. -/
abbrev PResult (α : Type) := ParserState × Except ParseError α

/-- The loop body applied to each batch of parsed fragments in
`parse_workflow` (key `none`) and `parse_parallel` (key `some group_id`):
fragments whose `parent_id` equals the key receive the running sequence
counter, which increments past them; all other fragments pass through
untouched. -/
def assign_sequences (key : Option Nat) (seq : Int) :
    List ParsedFragment → List ParsedFragment × Int
  | [] => ([], seq)
  | f :: fs =>
      if f.parent_id == key then
        ({ f with sequence := seq } :: (assign_sequences key (seq + 1) fs).1,
         (assign_sequences key (seq + 1) fs).2)
      else
        (f :: (assign_sequences key seq fs).1,
         (assign_sequences key seq fs).2)

mutual

/-- `parse_node` (`parser.rs`): dispatch on the node name. -/
def parse_node (fetcher : Fetcher) (fuel : Nat) (node : KdlNode)
    (default_machine : String) (st : ParserState) (parent_id : Option Nat) :
    PResult (List ParsedFragment) :=
  match fuel with
  | 0 => (st, .error .outOfFuel)
  | fuel + 1 =>
      if node.name == "fragment" then
        parse_fragment fetcher fuel node default_machine st parent_id
      else if node.name == "parallel" then
        parse_parallel fetcher fuel node default_machine st parent_id
      else
        (st, .error (.unknownNode node.name))

/-- `parse_fragment` (`parser.rs`): mutual exclusion of `run`/`from`, import
resolution for `from`, otherwise an inline fragment with machine default and
optional condition and parent. -/
def parse_fragment (fetcher : Fetcher) (fuel : Nat) (node : KdlNode)
    (default_machine : String) (st : ParserState) (parent_id : Option Nat) :
    PResult (List ParsedFragment) :=
  match fuel with
  | 0 => (st, .error .outOfFuel)
  | fuel + 1 =>
      let children := node.children
      let from_url := children.bind (fun c => get_string_value c "from")
      let run_script := children.bind (fun c => get_string_value c "run")
      match from_url, run_script with
      | some _, some _ => (st, .error .mutualExclusion)
      | none, none => (st, .error .noContent)
      | some url, none =>
          resolve_import fetcher fuel url default_machine st parent_id
      | none, some script =>
          let machine :=
            (children.bind (fun c => get_string_value c "machine")).getD
              default_machine
          let condition := children.bind (fun c => get_string_value c "condition")
          let (id, st) := freshId st
          let fragment := ParsedFragment.inline id 0 script
          let fragment := { fragment with machine := some machine }
          let fragment :=
            match condition with
            | some cond => { fragment with condition := some cond }
            | none => fragment
          let fragment :=
            match parent_id with
            | some pid => { fragment with parent_id := some pid }
            | none => fragment
          (st, .ok [fragment])

/-- `resolve_import` (`parser.rs`): error on a URL already in the visited set,
otherwise insert it (it is never removed), fetch, parse the fetched document
as a fragment file and rewrite the top-level parents to the current parent
context. -/
def resolve_import (fetcher : Fetcher) (fuel : Nat) (url : String)
    (default_machine : String) (st : ParserState) (parent_id : Option Nat) :
    PResult (List ParsedFragment) :=
  match fuel with
  | 0 => (st, .error .outOfFuel)
  | fuel + 1 =>
      if url ∈ st.visited then
        (st, .error (.circularImport url))
      else
        let st := { st with visited := url :: st.visited }
        match fetch fetcher url with
        | none => (st, .error (.fetchFailed url "not found"))
        | some doc =>
            match parse_file_nodes fetcher fuel doc url default_machine st with
            | (st, .error e) => (st, .error e)
            | (st, .ok fragments) =>
                let fragments :=
                  match parent_id with
                  | some pid =>
                      fragments.map (fun f =>
                        if f.parent_id.isNone then { f with parent_id := some pid }
                        else f)
                  | none => fragments
                (st, .ok fragments)

/-- The node loop of `parse_fragment_file` (`parser.rs`): only `fragment` and
`parallel` nodes are allowed; every emitted fragment without a `source_url`
is marked as coming from this import. -/
def parse_file_nodes (fetcher : Fetcher) (fuel : Nat) (nodes : List KdlNode)
    (source_url : String) (default_machine : String) (st : ParserState) :
    PResult (List ParsedFragment) :=
  match fuel with
  | 0 => (st, .error .outOfFuel)
  | fuel + 1 =>
      match nodes with
      | [] => (st, .ok [])
      | node :: rest =>
          if node.name == "fragment" || node.name == "parallel" then
            match parse_node fetcher fuel node default_machine st none with
            | (st, .error e) => (st, .error e)
            | (st, .ok parsed) =>
                let parsed := parsed.map (fun f =>
                  if f.source_url.isNone then { f with source_url := some source_url }
                  else f)
                match parse_file_nodes fetcher fuel rest source_url default_machine st with
                | (st, .error e) => (st, .error e)
                | (st, .ok more) => (st, .ok (parsed ++ more))
          else
            (st, .error (.invalidImportNode node.name))

/-- `parse_parallel` (`parser.rs`): one Group fragment plus its flattened
children; direct children (parent equal to the group's id) receive sequences
0, 1, 2, … in emission order. -/
def parse_parallel (fetcher : Fetcher) (fuel : Nat) (node : KdlNode)
    (default_machine : String) (st : ParserState) (parent_id : Option Nat) :
    PResult (List ParsedFragment) :=
  match fuel with
  | 0 => (st, .error .outOfFuel)
  | fuel + 1 =>
      let (gid, st) := freshId st
      let group := ParsedFragment.parallel_group gid 0
      let group :=
        match parent_id with
        | some pid => { group with parent_id := some pid }
        | none => group
      match node.children with
      | none => (st, .ok [group])
      | some children =>
          match parse_parallel_children fetcher fuel children default_machine st gid 0 with
          | (st, .error e) => (st, .error e)
          | (st, .ok frags) => (st, .ok (group :: frags))

/-- The child loop of `parse_parallel`: each child node's batch has its direct
children of the group numbered with the running counter. -/
def parse_parallel_children (fetcher : Fetcher) (fuel : Nat)
    (nodes : List KdlNode) (default_machine : String) (st : ParserState)
    (group_id : Nat) (child_sequence : Int) : PResult (List ParsedFragment) :=
  match fuel with
  | 0 => (st, .error .outOfFuel)
  | fuel + 1 =>
      match nodes with
      | [] => (st, .ok [])
      | node :: rest =>
          match parse_node fetcher fuel node default_machine st (some group_id) with
          | (st, .error e) => (st, .error e)
          | (st, .ok parsed) =>
              let (parsed, child_sequence) :=
                assign_sequences (some group_id) child_sequence parsed
              match parse_parallel_children fetcher fuel rest default_machine st
                  group_id child_sequence with
              | (st, .error e) => (st, .error e)
              | (st, .ok more) => (st, .ok (parsed ++ more))

/-- The root fragment loop of `parse_workflow`: `machine` nodes are skipped;
root-level fragments (parent `none`) receive sequences 0, 1, 2, … in emission
order. -/
def parse_root_nodes (fetcher : Fetcher) (fuel : Nat) (nodes : List KdlNode)
    (default_machine : String) (st : ParserState) (sequence : Int) :
    PResult (List ParsedFragment) :=
  match fuel with
  | 0 => (st, .error .outOfFuel)
  | fuel + 1 =>
      match nodes with
      | [] => (st, .ok [])
      | node :: rest =>
          if node.name == "machine" then
            parse_root_nodes fetcher fuel rest default_machine st sequence
          else
            match parse_node fetcher fuel node default_machine st none with
            | (st, .error e) => (st, .error e)
            | (st, .ok parsed) =>
                let (parsed, sequence) := assign_sequences none sequence parsed
                match parse_root_nodes fetcher fuel rest default_machine st sequence with
                | (st, .error e) => (st, .error e)
                | (st, .ok more) => (st, .ok (parsed ++ more))

end

/-- `parse_workflow` (`parser.rs`): validate `version`, `triggers`, the
`chain` node, its children and the default `machine`; seed the visited set
with the workflow's own source URL when provided; flatten the chain's
children; assemble the `ParsedChain`. -/
def parse_workflow (fetcher : Fetcher) (fuel : Nat) (doc : KdlDocument)
    (source_url : Option String) : Except ParseError ParsedChain :=
  match get_string_value doc "version" with
  | none => .error (.missingRequired "version" "workflow root")
  | some version =>
      if version ≠ "0.1" then .error (.unsupportedVersion version)
      else
        match get_string_args doc "triggers" with
        | none => .error (.missingRequired "triggers" "workflow root")
        | some triggers =>
            match doc.find? (fun n => n.name == "chain") with
            | none => .error (.missingRequired "chain" "workflow root")
            | some chain_node =>
                match chain_node.children with
                | none => .error (.missingRequired "chain children" "chain node")
                | some chain_doc =>
                    match get_string_value chain_doc "machine" with
                    | none => .error (.missingRequired "machine" "chain node")
                    | some default_machine =>
                        let visited :=
                          match source_url with
                          | some url => [url]
                          | none => []
                        let st : ParserState := { next_id := 0, visited := visited }
                        match parse_root_nodes fetcher fuel chain_doc
                            default_machine st 0 with
                        | (_, .error e) => .error e
                        | (st, .ok fragments) =>
                            let (cid, _) := freshId st
                            .ok { id := cid
                                  triggers := triggers
                                  default_machine := default_machine
                                  fragments := fragments }

/-! ## Chain construction and the parsing service
(`models/chain.rs`, `chain-parser/src/service.rs`) -/

/-- A `NewChain` insert row (`models/chain.rs`). -/
structure NewChain where
  id : Nat
  tenant_id : Nat
  status : ChainStatus
  attempt : Int
  source_file_path : Option String
  repository_url : Option String
  commit_sha : Option String
  branch : Option String
  trigger : Option TriggerType
  trigger_ref : Option String
  default_machine : Option String
deriving DecidableEq, Repr

/-- `NewChain::new`: status Active, attempt 1, everything else empty.
`Uuid::new_v4()` is modelled by the explicit `id` argument (`service.rs`
overwrites the id with the parsed chain's id immediately). -/
def NewChain.new (id : Nat) (tenant_id : Nat) : NewChain :=
  { id := id
    tenant_id := tenant_id
    status := .active
    attempt := 1
    source_file_path := none
    repository_url := none
    commit_sha := none
    branch := none
    trigger := none
    trigger_ref := none
    default_machine := none }

/-- Inserting a `NewChain` row into the chains table. -/
def insertNewChain (now : Nat) (nc : NewChain) : Chain :=
  { id := nc.id
    tenant_id := nc.tenant_id
    status := nc.status
    attempt := nc.attempt
    created_at := now
    updated_at := now
    source_file_path := nc.source_file_path
    repository_url := nc.repository_url
    commit_sha := nc.commit_sha
    branch := nc.branch
    trigger := nc.trigger
    trigger_ref := nc.trigger_ref
    default_machine := nc.default_machine
    started_at := none
    completed_at := none }

/-- `WorkflowContext` (`service.rs`). -/
structure WorkflowContext where
  tenant_id : Nat
  source_file_path : Option String
  repository_url : Option String
  commit_sha : Option String
  branch : Option String
  trigger : Option TriggerType
  trigger_ref : Option String
deriving DecidableEq, Repr

/-- `WorkflowContext::new`. -/
def WorkflowContext.new (tenant_id : Nat) : WorkflowContext :=
  { tenant_id := tenant_id
    source_file_path := none
    repository_url := none
    commit_sha := none
    branch := none
    trigger := none
    trigger_ref := none }

/-- `ParsedWorkflow` (`service.rs`): a chain row plus its fragment rows, ready
for insertion. -/
structure ParsedWorkflow where
  chain : NewChain
  fragments : List NewFragment
deriving DecidableEq, Repr

/-- `create_new_chain` (`service.rs`): a fresh chain carrying the parsed id
and default machine plus the context's provenance and trigger. -/
def create_new_chain (parsed : ParsedChain) (context : WorkflowContext) : NewChain :=
  let chain := NewChain.new parsed.id context.tenant_id
  let chain := { chain with
    id := parsed.id
    default_machine := some parsed.default_machine }
  let chain :=
    match context.source_file_path with
    | some path => { chain with source_file_path := some path }
    | none => chain
  let chain :=
    match context.repository_url with
    | some url => { chain with repository_url := some url }
    | none => chain
  let chain :=
    match context.commit_sha with
    | some sha => { chain with commit_sha := some sha }
    | none => chain
  let chain :=
    match context.branch with
    | some branch => { chain with branch := some branch }
    | none => chain
  let chain :=
    match context.trigger with
    | some trigger => { chain with trigger := some trigger }
    | none => chain
  match context.trigger_ref with
  | some trigger_ref => { chain with trigger_ref := some trigger_ref }
  | none => chain

/-- `ChainParserService::parse` (`service.rs`): parse the workflow, validate
the context's trigger against the document's, assemble the chain and fragment
rows.  (The Rust `InvalidTrigger` message is a formatted string; the model
keeps its variable part, the requested trigger name.) -/
def service_parse (fetcher : Fetcher) (fuel : Nat) (content : KdlDocument)
    (context : WorkflowContext) : Except ParseError ParsedWorkflow :=
  match parse_workflow fetcher fuel content context.source_file_path with
  | .error e => .error e
  | .ok parsed =>
      match context.trigger with
      | some trigger =>
          let trigger_str := trigger_type_to_str trigger
          if parsed.triggers.contains trigger_str then
            let chain := create_new_chain parsed context
            .ok { chain := chain, fragments := create_new_fragments parsed chain.id }
          else
            .error (.invalidTrigger trigger_str)
      | none =>
          let chain := create_new_chain parsed context
          .ok { chain := chain, fragments := create_new_fragments parsed chain.id }

/-- `ChainParserService::parse_without_trigger_validation` (`service.rs`). -/
def service_parse_without_trigger_validation (fetcher : Fetcher) (fuel : Nat)
    (content : KdlDocument) (context : WorkflowContext) :
    Except ParseError ParsedWorkflow :=
  match parse_workflow fetcher fuel content context.source_file_path with
  | .error e => .error e
  | .ok parsed =>
      let chain := create_new_chain parsed context
      .ok { chain := chain, fragments := create_new_fragments parsed chain.id }

/-! ## Parse API (`chain-parser-api/src/handlers.rs`) -/

/-- `ApiError` (`chain-parser-api/src/error.rs`). -/
inductive ApiError where
  | parseError (e : ParseError)
  | databaseError
  | invalidRequest (msg : String)
  | internal (msg : String)
deriving DecidableEq, Repr

/-- `ParseRequest` (`handlers.rs`); `content` is embedded post-KDL-parse. -/
structure ParseRequest where
  content : KdlDocument
  tenant_id : Nat
  source_file_path : Option String
  repository_url : Option String
  commit_sha : Option String
  branch : Option String
  trigger : Option String
  trigger_ref : Option String

/-- `ParseResponse` (`handlers.rs`). -/
structure ParseResponse where
  chain_id : Nat
  fragment_count : Nat
  message : String
deriving DecidableEq, Repr

/-- `parse_trigger_type` (`handlers.rs`). -/
def parse_trigger_type (s : String) : Except ApiError TriggerType :=
  match s.toLower with
  | "push" => .ok .push
  | "pull_request" => .ok .pullRequest
  | "tag" => .ok .tag
  | "schedule" => .ok .schedule
  | "manual" => .ok .manual
  | _ => .error (.invalidRequest ("invalid trigger type: " ++ s))

/-- The `NoOpFetcher` of `handlers.rs`: every import fetch fails.  (The empty
fetcher map; it differs from the Rust fetcher only in the constant text of
the failure reason.) -/
def NoOpFetcher : Fetcher := []

/-- The `POST /parse` handler `parse_workflow` (`handlers.rs`): build the
context, parse (with trigger validation exactly when the request names a
trigger), and only on success insert the chain row and the fragment rows.
The result pairs the updated tables with the response or error. -/
def parse_workflow_handler (fuel : Nat) (request : ParseRequest) (cdb : ChainDb)
    (fdb : FragmentDb) (now : Nat) :
    ChainDb × FragmentDb × Except ApiError ParseResponse :=
  let context := WorkflowContext.new request.tenant_id
  let context := { context with
    source_file_path := request.source_file_path
    repository_url := request.repository_url
    commit_sha := request.commit_sha
    branch := request.branch }
  match request.trigger with
  | some trigger_string =>
      match parse_trigger_type trigger_string with
      | .error e => (cdb, fdb, .error e)
      | .ok trigger_type =>
          let context := { context with
            trigger := some trigger_type
            trigger_ref := request.trigger_ref }
          match service_parse NoOpFetcher fuel request.content context with
          | .error e => (cdb, fdb, .error (.parseError e))
          | .ok parsed =>
              let chain := insertNewChain now parsed.chain
              let fragments := parsed.fragments.map (insertNewFragment now)
              (cdb ++ [chain], fdb ++ fragments,
               .ok { chain_id := chain.id
                     fragment_count := fragments.length
                     message := "Workflow parsed and stored successfully" })
  | none =>
      match service_parse_without_trigger_validation NoOpFetcher fuel
          request.content context with
      | .error e => (cdb, fdb, .error (.parseError e))
      | .ok parsed =>
          let chain := insertNewChain now parsed.chain
          let fragments := parsed.fragments.map (insertNewFragment now)
          (cdb ++ [chain], fdb ++ fragments,
           .ok { chain_id := chain.id
                 fragment_count := fragments.length
                 message := "Workflow parsed and stored successfully" })

/-! ## Helper lemmas on table updates -/

/-- After a fragment-row update, looking the id up finds the updated row,
provided the update preserves the id column. -/
theorem findFragmentById_update (db : FragmentDb) (fid : Nat)
    (upd : Fragment → Fragment) (hid : ∀ r, (upd r).id = r.id) :
    findFragmentById (db.map (fun r => if r.id == fid then upd r else r)) fid
      = (findFragmentById db fid).map upd := by
  induction db with
  | nil => rfl
  | cons r rs ih =>
      simp only [findFragmentById, List.map_cons] at *
      by_cases h : r.id = fid
      · rw [if_pos (show (r.id == fid) = true by simp [h]),
          @List.find?_cons_of_pos Fragment (fun r => r.id == fid) (upd r)
            (rs.map (fun r => if r.id == fid then upd r else r)) (by simp [hid, h]),
          @List.find?_cons_of_pos Fragment (fun r => r.id == fid) r rs (by simp [h]),
          Option.map_some']
      · rw [if_neg (show ¬ (r.id == fid) = true by simp [h]),
          @List.find?_cons_of_neg Fragment (fun r => r.id == fid) r
            (rs.map (fun r => if r.id == fid then upd r else r)) (by simp [h]),
          @List.find?_cons_of_neg Fragment (fun r => r.id == fid) r rs (by simp [h])]
        exact ih

/-- After a chain-row update, looking the id up finds the updated row,
provided the update preserves the id column. -/
theorem findChainById_update (db : ChainDb) (cid : Nat)
    (upd : Chain → Chain) (hid : ∀ r, (upd r).id = r.id) :
    (db.map (fun r => if r.id == cid then upd r else r)).find? (fun r => r.id == cid)
      = (db.find? (fun r => r.id == cid)).map upd := by
  induction db with
  | nil => rfl
  | cons r rs ih =>
      simp only [List.map_cons] at *
      by_cases h : r.id = cid
      · rw [if_pos (show (r.id == cid) = true by simp [h]),
          @List.find?_cons_of_pos Chain (fun r => r.id == cid) (upd r)
            (rs.map (fun r => if r.id == cid then upd r else r)) (by simp [hid, h]),
          @List.find?_cons_of_pos Chain (fun r => r.id == cid) r rs (by simp [h]),
          Option.map_some']
      · rw [if_neg (show ¬ (r.id == cid) = true by simp [h]),
          @List.find?_cons_of_neg Chain (fun r => r.id == cid) r
            (rs.map (fun r => if r.id == cid then upd r else r)) (by simp [h]),
          @List.find?_cons_of_neg Chain (fun r => r.id == cid) r rs (by simp [h])]
        exact ih

/-- After a worker-row update, looking the id up finds the updated row,
provided the update preserves the id column. -/
theorem findWorkerById_update (db : WorkerDb) (wid : Nat)
    (upd : Worker → Worker) (hid : ∀ r, r.id = wid → (upd r).id = wid) :
    (db.map (fun r => if r.id == wid then upd r else r)).find? (fun r => r.id == wid)
      = (db.find? (fun r => r.id == wid)).map upd := by
  induction db with
  | nil => rfl
  | cons r rs ih =>
      simp only [List.map_cons] at *
      by_cases h : r.id = wid
      · rw [if_pos (show (r.id == wid) = true by simp [h]),
          @List.find?_cons_of_pos Worker (fun r => r.id == wid) (upd r)
            (rs.map (fun r => if r.id == wid then upd r else r)) (by simp [hid r h]),
          @List.find?_cons_of_pos Worker (fun r => r.id == wid) r rs (by simp [h]),
          Option.map_some']
      · rw [if_neg (show ¬ (r.id == wid) = true by simp [h]),
          @List.find?_cons_of_neg Worker (fun r => r.id == wid) r
            (rs.map (fun r => if r.id == wid then upd r else r)) (by simp [h]),
          @List.find?_cons_of_neg Worker (fun r => r.id == wid) r rs (by simp [h])]
        exact ih

/-! ## C1 -/

/-- **C1**: for every fragment id and worker id, `try_claim` transitions the
fragment from Pending to Running, sets the assigned worker and the started
timestamp and returns the updated row exactly when the fragment's status was
Pending at the moment of the update; in every other case (status not Pending,
or no such fragment) it leaves the table unchanged and returns null.
(`try_claim` is modelled from the spec because its implementation is not
among the provided sources; see its definition.) -/
theorem C1_try_claim_pending_iff (db : FragmentDb) (fid wid now : Nat) :
    (∀ frag, findFragmentById db fid = some frag →
      (frag.status = .pending →
        try_claim db fid wid now =
          (db.map (fun r => if r.id == fid then start_execution_set now wid r else r),
           some (start_execution_set now wid frag)) ∧
        (start_execution_set now wid frag).status = .running ∧
        (start_execution_set now wid frag).assigned_worker_id = some wid ∧
        (start_execution_set now wid frag).started_at = some now ∧
        (start_execution_set now wid frag).attempt = frag.attempt) ∧
      (frag.status ≠ .pending → try_claim db fid wid now = (db, none))) ∧
    (findFragmentById db fid = none → try_claim db fid wid now = (db, none)) := by
  constructor
  · intro frag hfind
    constructor
    · intro hpend
      refine ⟨?_, rfl, rfl, rfl, rfl⟩
      simp [try_claim, hfind, hpend]
    · intro hnp
      simp [try_claim, hfind, hnp]
  · intro hnone
    simp [try_claim, hnone]

/-- The pending fragment used in the C1 witness. -/
def c1Fragment : Fragment :=
  { id := 1
    chain_id := 10
    attempt := 1
    status := .pending
    created_at := 0
    updated_at := 0
    parent_fragment_id := none
    sequence := 0
    fragment_type := .inline
    run_script := some "npm build"
    machine := none
    is_parallel := false
    condition := none
    source_url := none
    assigned_worker_id := none
    started_at := none
    completed_at := none
    exit_code := none
    error_message := none }

/-- Witness for C1 at a concrete one-row table. -/
theorem C1_try_claim_pending_iff_witness :
    try_claim [c1Fragment] 1 7 5 =
      ([start_execution_set 5 7 c1Fragment], some (start_execution_set 5 7 c1Fragment)) ∧
    (start_execution_set 5 7 c1Fragment).status = .running := by
  have h := (C1_try_claim_pending_iff [c1Fragment] 1 7 5).1 c1Fragment (by rfl)
  have h1 := h.1 rfl
  exact ⟨h1.1, h1.2.1⟩

/-! ## C7 -/

/-- **C7**: for every fragment present in the table, `reset_for_retry`
returns a row whose status is Pending, whose assigned worker, timestamps,
exit code and error message are cleared, and whose attempt is the previous
attempt plus exactly one; that row is what is stored for the fragment's id. -/
theorem C7_reset_for_retry (db : FragmentDb) (fid : Nat) (frag : Fragment)
    (hfind : findFragmentById db fid = some frag) :
    ∃ db' updated, reset_for_retry db fid = some (db', updated) ∧
      updated.status = .pending ∧
      updated.assigned_worker_id = none ∧
      updated.started_at = none ∧
      updated.completed_at = none ∧
      updated.exit_code = none ∧
      updated.error_message = none ∧
      updated.attempt = frag.attempt + 1 ∧
      findFragmentById db' fid = some updated := by
  refine ⟨db.map (fun r => if r.id == fid then reset_for_retry_set r else r),
    reset_for_retry_set frag, ?_, rfl, rfl, rfl, rfl, rfl, rfl, rfl, ?_⟩
  · simp [reset_for_retry, updateFragment, hfind]
  · rw [findFragmentById_update db fid reset_for_retry_set (fun r => rfl), hfind,
      Option.map_some']

/-- Witness for C7 at a concrete one-row table. -/
theorem C7_reset_for_retry_witness :
    ∃ db' updated, reset_for_retry [c1Fragment] 1 = some (db', updated) ∧
      updated.status = .pending ∧
      updated.assigned_worker_id = none ∧
      updated.started_at = none ∧
      updated.completed_at = none ∧
      updated.exit_code = none ∧
      updated.error_message = none ∧
      updated.attempt = c1Fragment.attempt + 1 ∧
      findFragmentById db' 1 = some updated :=
  C7_reset_for_retry [c1Fragment] 1 c1Fragment (by rfl)

/-! ## C9 -/

/-- **C9, counterexample**: the claim quantifies over every scaling
configuration, but nothing in `calculate_desired_replicas` (or in the
controller's configuration loading) requires `min_replicas ≤ max_replicas`.
With `min_replicas = 5`, `max_replicas = 3` and
`target_pending_per_worker = 0` the function returns `min_replicas = 5`,
which does not lie in the (empty) interval `[5, 3]`. -/
theorem C9_counterexample :
    calculate_desired_replicas
      { min_replicas := 5, max_replicas := 3, target_pending_per_worker := 0 } 0
        = some 5 ∧
    ¬ ((5 : ℤ) ≤ 3) := by
  constructor
  · rfl
  · decide

/-- Saturating the clamped value at the `i32` range is invisible when the
clamp bounds themselves lie in the `i32` range. -/
theorem clamp_i32_saturate (x lo hi : Int) (h2 : -(2 ^ 31) ≤ lo)
    (h3 : hi ≤ 2 ^ 31 - 1) :
    min (max (i32_saturate x) lo) hi = min (max x lo) hi := by
  unfold i32_saturate
  omega

/-- **C9, amended**: provided `min_replicas ≤ max_replicas` (with both in the
`i32` range, as their Rust type guarantees), `calculate_desired_replicas`
returns `min_replicas` when `target_pending_per_worker ≤ 0` and otherwise
`ceil(pending / target_pending_per_worker)` clamped to
`[min_replicas, max_replicas]`; in all those cases the result lies in
`[min_replicas, max_replicas]`.  (The claim as stated fails when
`min_replicas > max_replicas`; the source's `i32::clamp` then panics, and the
`target ≤ 0` branch returns a value outside the empty interval.) -/
theorem C9_amended_clamp (config : ScalingConfig) (pending : Int)
    (h1 : config.min_replicas ≤ config.max_replicas)
    (h2 : -(2 ^ 31) ≤ config.min_replicas)
    (h3 : config.max_replicas ≤ 2 ^ 31 - 1) :
    (config.target_pending_per_worker ≤ 0 →
      calculate_desired_replicas config pending = some config.min_replicas) ∧
    (0 < config.target_pending_per_worker →
      calculate_desired_replicas config pending =
        some (min (max ⌈(pending : ℚ) / config.target_pending_per_worker⌉
          config.min_replicas) config.max_replicas)) ∧
    (∃ r, calculate_desired_replicas config pending = some r ∧
      config.min_replicas ≤ r ∧ r ≤ config.max_replicas) := by
  by_cases ht : config.target_pending_per_worker ≤ 0
  · refine ⟨fun _ => ?_, fun hpos => absurd hpos (not_lt.mpr ht), ?_⟩
    · simp [calculate_desired_replicas, ht]
    · exact ⟨config.min_replicas, by simp [calculate_desired_replicas, ht],
        le_refl _, h1⟩
  · have heq : calculate_desired_replicas config pending =
        some (min (max ⌈(pending : ℚ) / config.target_pending_per_worker⌉
          config.min_replicas) config.max_replicas) := by
      simp only [calculate_desired_replicas, if_neg ht, rust_clamp, if_pos h1]
      rw [clamp_i32_saturate _ _ _ h2 h3]
    refine ⟨fun hle => absurd hle ht, fun _ => heq, ?_⟩
    refine ⟨_, heq, ?_, ?_⟩
    · exact le_min (le_max_right _ _) h1
    · exact min_le_right _ _

/-- Witness for the amended C9 at the default configuration. -/
theorem C9_amended_clamp_witness :
    ((0 : ℚ) ≤ 0 →
      calculate_desired_replicas
        { min_replicas := 0, max_replicas := 10, target_pending_per_worker := 0 } 7
          = some 0) ∧
    ¬ (0 : ℚ) < 0 ∧
    (∃ r, calculate_desired_replicas
        { min_replicas := 0, max_replicas := 10, target_pending_per_worker := 0 } 7
          = some r ∧ (0 : ℤ) ≤ r ∧ r ≤ 10) := by
  have h := C9_amended_clamp
    { min_replicas := 0, max_replicas := 10, target_pending_per_worker := 0 } 7
    (by decide) (by decide) (by decide)
  exact ⟨h.1, by decide, h.2.2⟩

/-! ## C4 -/

/-- **C4**: when every fragment of the affected chain is terminal, the chain
is marked Completed if all fragments are Completed (success) and Failed if at
least one is not; when some fragment is non-terminal the chains table is left
unchanged. -/
theorem C4_chain_rollup (fdb : FragmentDb) (cdb : ChainDb) (chain_id now : Nat)
    (chain : Chain) (hchain : cdb.find? (fun c => c.id == chain_id) = some chain) :
    ((find_by_chain fdb chain_id).all (fun f => f.status.is_terminal) = true →
      ∃ cdb', check_chain_completion fdb cdb chain_id now = some cdb' ∧
        cdb'.find? (fun c => c.id == chain_id) = some
          (if (find_by_chain fdb chain_id).all (fun f => f.status.is_success) then
            { chain with status := .completed, completed_at := some now }
          else
            { chain with status := .failed, completed_at := some now })) ∧
    ((find_by_chain fdb chain_id).all (fun f => f.status.is_terminal) = false →
      check_chain_completion fdb cdb chain_id now = some cdb) := by
  constructor
  · intro hterm
    by_cases hsucc : (find_by_chain fdb chain_id).all (fun f => f.status.is_success) = true
    · have hany : (find_by_chain fdb chain_id).any (fun f => !f.status.is_success) = false := by
        rw [List.any_eq_false]
        intro f hf
        rw [List.all_eq_true] at hsucc
        simp [hsucc f hf]
      refine ⟨cdb.map (fun c => if c.id == chain_id then
        { c with status := ChainStatus.completed, completed_at := some now } else c),
        ?_, ?_⟩
      · simp [check_chain_completion, hterm, hany, mark_completed, updateChain, hchain]
      · rw [findChainById_update cdb chain_id
          (fun c => { c with status := ChainStatus.completed, completed_at := some now })
          (fun r => rfl), hchain, Option.map_some', if_pos hsucc]
    · have hsucc' : (find_by_chain fdb chain_id).all (fun f => f.status.is_success) = false :=
        Bool.eq_false_iff.mpr hsucc
      have hany : (find_by_chain fdb chain_id).any (fun f => !f.status.is_success) = true := by
        by_contra hno
        have hfalse := Bool.eq_false_iff.mpr hno
        rw [List.any_eq_false] at hfalse
        apply hsucc
        rw [List.all_eq_true]
        intro f hf
        have := hfalse f hf
        simpa using this
      refine ⟨cdb.map (fun c => if c.id == chain_id then
        { c with status := ChainStatus.failed, completed_at := some now } else c),
        ?_, ?_⟩
      · simp [check_chain_completion, hterm, hany, mark_failed, updateChain, hchain]
      · rw [findChainById_update cdb chain_id
          (fun c => { c with status := ChainStatus.failed, completed_at := some now })
          (fun r => rfl), hchain, Option.map_some', if_neg (by simp [hsucc'])]
  · intro hterm
    simp [check_chain_completion, hterm]

/-- The chain used in the C4 witness. -/
def c4Chain : Chain :=
  { id := 10
    tenant_id := 1
    status := .running
    attempt := 1
    created_at := 0
    updated_at := 0
    source_file_path := none
    repository_url := none
    commit_sha := none
    branch := none
    trigger := none
    trigger_ref := none
    default_machine := some "m"
    started_at := some 1
    completed_at := none }

/-- The completed fragment used in the C4 witness. -/
def c4Fragment : Fragment :=
  { c1Fragment with id := 2, chain_id := 10, status := .completed }

/-- Witness for C4 at a one-fragment, one-chain store. -/
theorem C4_chain_rollup_witness :
    ∃ cdb', check_chain_completion [c4Fragment] [c4Chain] 10 9 = some cdb' ∧
      cdb'.find? (fun c => c.id == 10) = some
        (if (find_by_chain [c4Fragment] 10).all (fun f => f.status.is_success) then
          { c4Chain with status := .completed, completed_at := some 9 }
        else
          { c4Chain with status := .failed, completed_at := some 9 }) :=
  (C4_chain_rollup [c4Fragment] [c4Chain] 10 9 c4Chain (by rfl)).1 (by rfl)

/-! ## C8 -/

/-- The orchestrator configuration used in the C8 theorems. -/
def c8Config : HealthConfig := { max_retry_attempts := 3 }

/-- A fragment whose retry budget is exhausted (attempt = max). -/
def c8Fragment : Fragment :=
  { c1Fragment with
    id := 4, status := .running, attempt := 3, assigned_worker_id := some 5 }

/-- A dead worker holding `c8Fragment`. -/
def c8Worker : Worker :=
  { id := 5
    tenant_id := 1
    status := .active
    created_at := 0
    updated_at := 0
    current_chain_id := none
    previous_chain_id := none
    next_chain_id := none
    last_heartbeat_at := some 0
    machine_group := none
    current_fragment_id := some 4 }

/-- **C8, counterexample**: the liveness monitor's failure message is
"Worker died and max retry attempts exceeded" (capital W), not the claimed
"worker died and max retry attempts exceeded".  At a dead worker holding a
fragment whose attempt equals `max_retry_attempts`, the fragment ends Failed
with the capitalised message, and no fragment carries the claimed message. -/
theorem C8_counterexample :
    ∃ fdb' wdb',
      handle_dead_worker c8Config [c8Fragment] [c8Worker] c8Worker 9
        = some (fdb', wdb') ∧
      findFragmentById fdb' 4 = some
        (fail_execution_set 9 "Worker died and max retry attempts exceeded" c8Fragment) ∧
      (∀ f ∈ fdb', f.error_message ≠ some "worker died and max retry attempts exceeded") := by
  refine ⟨[fail_execution_set 9 "Worker died and max retry attempts exceeded" c8Fragment],
    [{ c8Worker with status := .error, current_fragment_id := none }], ?_, ?_, ?_⟩
  · rfl
  · rfl
  · intro f hf
    rw [List.mem_singleton] at hf
    subst hf
    decide

/-- **C8, amended**: for every dead worker that holds a current fragment, the
monitor resets the fragment for retry when `attempt < max_retry_attempts` and
otherwise fails it with the message "Worker died and max retry attempts
exceeded" (the source capitalises the first word); in both cases the worker
ends in Error status with its `current_fragment_id` cleared. -/
theorem C8_amended_dead_worker (config : HealthConfig) (fdb : FragmentDb)
    (wdb : WorkerDb) (worker : Worker) (now fid : Nat) (fragment : Fragment)
    (hw : wdb.find? (fun r => r.id == worker.id) = some worker)
    (hcf : worker.current_fragment_id = some fid)
    (hfrag : findFragmentById fdb fid = some fragment) :
    ∃ fdb' wdb', handle_dead_worker config fdb wdb worker now = some (fdb', wdb') ∧
      (fragment.attempt < config.max_retry_attempts →
        findFragmentById fdb' fid = some (reset_for_retry_set fragment)) ∧
      (¬ fragment.attempt < config.max_retry_attempts →
        findFragmentById fdb' fid = some
          (fail_execution_set now "Worker died and max retry attempts exceeded" fragment)) ∧
      wdb'.find? (fun r => r.id == worker.id) =
        some { worker with status := .error, current_fragment_id := none } := by
  have hwu : worker_update wdb { worker with status := WorkerStatus.error } =
      some (wdb.map (fun r => if r.id == worker.id then
        { worker with status := WorkerStatus.error } else r),
        { worker with status := WorkerStatus.error }) := by
    simp only [worker_update, updateWorker]
    rw [hw]
  have hw1 : (wdb.map (fun r => if r.id == worker.id then
        { worker with status := WorkerStatus.error } else r)).find?
        (fun r => r.id == worker.id) = some { worker with status := WorkerStatus.error } := by
    rw [findWorkerById_update wdb worker.id
      (fun _ => { worker with status := WorkerStatus.error }) (fun r _ => rfl), hw,
      Option.map_some']
  have hca : clear_assignment (wdb.map (fun r => if r.id == worker.id then
        { worker with status := WorkerStatus.error } else r)) worker.id =
      some ((wdb.map (fun r => if r.id == worker.id then
        { worker with status := WorkerStatus.error } else r)).map
          (fun r => if r.id == worker.id then { r with current_fragment_id := none } else r),
        { worker with status := WorkerStatus.error, current_fragment_id := none }) := by
    simp only [clear_assignment, updateWorker]
    rw [hw1]
  have hwfinal : ((wdb.map (fun r => if r.id == worker.id then
        { worker with status := WorkerStatus.error } else r)).map
          (fun r => if r.id == worker.id then { r with current_fragment_id := none } else r)).find?
        (fun r => r.id == worker.id) =
        some { worker with status := WorkerStatus.error, current_fragment_id := none } := by
    rw [findWorkerById_update _ worker.id
      (fun r => { r with current_fragment_id := none }) (fun r h => h), hw1,
      Option.map_some']
  generalize hW : ({ worker with status := WorkerStatus.error } : Worker) = W
    at hwu hw1 hca hwfinal
  by_cases hlt : fragment.attempt < config.max_retry_attempts
  · have hrfr : reset_for_retry fdb fid =
        some (fdb.map (fun r => if r.id == fid then reset_for_retry_set r else r),
          reset_for_retry_set fragment) := by
      simp only [reset_for_retry, updateFragment]
      rw [hfrag]
    refine ⟨fdb.map (fun r => if r.id == fid then reset_for_retry_set r else r),
      (wdb.map (fun r => if r.id == worker.id then W else r)).map
        (fun r => if r.id == worker.id then { r with current_fragment_id := none } else r),
      ?_, ?_, fun h => absurd hlt h, hwfinal⟩
    · simp only [handle_dead_worker]
      rw [hW]
      simp only [hwu, hcf, hfrag, if_pos hlt, hrfr, hca, Option.map_some']
    · intro _
      rw [findFragmentById_update fdb fid reset_for_retry_set (fun r => rfl), hfrag,
        Option.map_some']
  · have hfe : fail_execution fdb fid "Worker died and max retry attempts exceeded" now =
        some (fdb.map (fun r => if r.id == fid then
          fail_execution_set now "Worker died and max retry attempts exceeded" r else r),
          fail_execution_set now "Worker died and max retry attempts exceeded" fragment) := by
      simp only [fail_execution, updateFragment]
      rw [hfrag]
    refine ⟨fdb.map (fun r => if r.id == fid then
      fail_execution_set now "Worker died and max retry attempts exceeded" r else r),
      (wdb.map (fun r => if r.id == worker.id then W else r)).map
        (fun r => if r.id == worker.id then { r with current_fragment_id := none } else r),
      ?_, fun h => absurd h hlt, ?_, hwfinal⟩
    · simp only [handle_dead_worker]
      rw [hW]
      simp only [hwu, hcf, hfrag, if_neg hlt, hfe, hca, Option.map_some']
    · intro _
      rw [findFragmentById_update fdb fid
        (fail_execution_set now "Worker died and max retry attempts exceeded")
        (fun r => rfl), hfrag, Option.map_some']

/-- A fragment with retry budget remaining (attempt 1 of 3). -/
def c8FragmentRetry : Fragment := { c8Fragment with attempt := 1 }

/-- Witness for the amended C8 at a concrete store. -/
theorem C8_amended_dead_worker_witness :
    ∃ fdb' wdb',
      handle_dead_worker c8Config [c8FragmentRetry] [c8Worker] c8Worker 9
        = some (fdb', wdb') ∧
      (c8FragmentRetry.attempt < c8Config.max_retry_attempts →
        findFragmentById fdb' 4 = some (reset_for_retry_set c8FragmentRetry)) ∧
      (¬ c8FragmentRetry.attempt < c8Config.max_retry_attempts →
        findFragmentById fdb' 4 = some
          (fail_execution_set 9 "Worker died and max retry attempts exceeded" c8FragmentRetry)) ∧
      wdb'.find? (fun r => r.id == c8Worker.id) =
        some { c8Worker with status := .error, current_fragment_id := none } :=
  C8_amended_dead_worker c8Config [c8FragmentRetry] [c8Worker] c8Worker 9 4
    c8FragmentRetry (by rfl) (by rfl) (by rfl)

/-! ## C2 -/

/-- Insertion keeps exactly the elements. -/
theorem mem_insertBySequence {g f : Fragment} {l : List Fragment} :
    g ∈ insertBySequence f l ↔ g = f ∨ g ∈ l := by
  induction l with
  | nil => simp [insertBySequence]
  | cons a as ih =>
      simp only [insertBySequence]
      by_cases h : f.sequence ≤ a.sequence
      · simp [h]
      · simp only [if_neg h, List.mem_cons, ih]
        tauto

/-- Sorting keeps exactly the elements. -/
theorem mem_sortBySequence {g : Fragment} {l : List Fragment} :
    g ∈ sortBySequence l ↔ g ∈ l := by
  induction l with
  | nil => simp [sortBySequence]
  | cons a as ih => simp [sortBySequence, mem_insertBySequence, ih]

/-- Every fragment returned by `find_pending_by_machine` has status Pending. -/
theorem find_pending_by_machine_status (db : FragmentDb) (machine : Option String)
    (f : Fragment) (h : f ∈ find_pending_by_machine db machine) :
    f.status = .pending := by
  unfold find_pending_by_machine at h
  cases machine with
  | none =>
      rw [mem_sortBySequence] at h
      have := (List.mem_filter.mp h).2
      simpa using this
  | some m =>
      rw [mem_sortBySequence] at h
      have h1 := (List.mem_filter.mp h).1
      have := (List.mem_filter.mp h1).2
      simpa using this

/-- The status and attempt columns of `convert_fragment` come unchanged from
`NewFragment::inline` / `NewFragment::parallel_group`. -/
theorem convert_fragment_status_attempt (pf : ParsedFragment) (chain_id : Nat) :
    (convert_fragment pf chain_id).status = .active ∧
    (convert_fragment pf chain_id).attempt = 1 := by
  unfold convert_fragment NewFragment.inline NewFragment.parallel_group
  cases pf.fragment_type <;>
    cases pf.machine <;>
      cases pf.condition <;>
        cases pf.source_url <;>
          simp

/-- **C2**: every fragment row produced by compiling a workflow is created
with status Active and attempt 1, and (being Active, not Pending) is absent
from the scheduler's `find_pending_by_machine` candidate list for every
machine-group filter and every table it is inserted into. -/
theorem C2_compiled_fragments_not_schedulable (parsed : ParsedChain) (chain_id : Nat) :
    ∀ nf ∈ create_new_fragments parsed chain_id,
      nf.status = .active ∧ nf.attempt = 1 ∧
      ∀ (db : FragmentDb) (machine : Option String) (now : Nat),
        insertNewFragment now nf ∉ find_pending_by_machine db machine := by
  intro nf hnf
  obtain ⟨pf, _, hconv⟩ := List.mem_map.mp hnf
  obtain ⟨hstatus, hattempt⟩ := convert_fragment_status_attempt pf chain_id
  rw [← hconv]
  refine ⟨hstatus, hattempt, ?_⟩
  intro db machine now hmem
  have hpend := find_pending_by_machine_status db machine _ hmem
  have : (insertNewFragment now (convert_fragment pf chain_id)).status
      = (convert_fragment pf chain_id).status := rfl
  rw [this, hstatus] at hpend
  exact absurd hpend (by decide)

/-- The parsed one-fragment chain used in the C2 witness. -/
def c2Parsed : ParsedChain :=
  { id := 0
    triggers := ["push"]
    default_machine := "m"
    fragments := [ParsedFragment.inline 1 0 "npm build"] }

/-- The converted fragment row of the C2 witness. -/
def c2New : NewFragment := convert_fragment (ParsedFragment.inline 1 0 "npm build") 0

/-- Witness for C2: the freshly compiled fragment is Active with attempt 1
and invisible to the scheduler even in a table that contains it. -/
theorem C2_compiled_fragments_not_schedulable_witness :
    c2New.status = .active ∧ c2New.attempt = 1 ∧
    insertNewFragment 5 c2New ∉ find_pending_by_machine [insertNewFragment 5 c2New] none := by
  have h := C2_compiled_fragments_not_schedulable c2Parsed 0 c2New
    (by simp [create_new_fragments, c2Parsed, c2New])
  exact ⟨h.1, h.2.1, h.2.2 [insertNewFragment 5 c2New] none 5⟩

/-! ## C3 -/

/-- **C3**: a candidate whose parent is a Group with `is_parallel` is eligible
unconditionally; otherwise (root-level candidate, missing parent row, or
parent not parallel) it is eligible exactly when every sibling — same chain,
same parent — with a strictly smaller sequence is terminal.  The hypothesis
is the data-model invariant (spec §3) that Inline fragments never carry
`is_parallel`, which makes "parent is a parallel Group" and the code's
"parent row's `is_parallel` flag" coincide. -/
theorem C3_sibling_eligibility (db : FragmentDb) (fragment : Fragment)
    (hinv : ∀ p ∈ db, p.fragment_type = .inline → p.is_parallel = false) :
    ((∃ pid p, fragment.parent_fragment_id = some pid ∧
        findFragmentById db pid = some p ∧
        p.fragment_type = .group ∧ p.is_parallel = true) →
      fragment_eligible db fragment = true) ∧
    (¬ (∃ pid p, fragment.parent_fragment_id = some pid ∧
        findFragmentById db pid = some p ∧
        p.fragment_type = .group ∧ p.is_parallel = true) →
      (fragment_eligible db fragment = true ↔
        ∀ s ∈ db, s.chain_id = fragment.chain_id →
          s.parent_fragment_id = fragment.parent_fragment_id →
          s.sequence < fragment.sequence → s.status.is_terminal = true)) := by
  constructor
  · rintro ⟨pid, p, h1, h2, _, h4⟩
    have hval : scheduler_is_parallel db fragment = true := by
      simp [scheduler_is_parallel, h1, h2, h4]
    simp [fragment_eligible, can_execute_with_siblings, hval]
  · intro hnpar
    have hsp : scheduler_is_parallel db fragment = false := by
      cases hp : fragment.parent_fragment_id with
      | none => simp [scheduler_is_parallel, hp]
      | some pid =>
          cases hf : findFragmentById db pid with
          | none => simp [scheduler_is_parallel, hp, hf]
          | some p =>
              have hval : scheduler_is_parallel db fragment = p.is_parallel := by
                simp [scheduler_is_parallel, hp, hf]
              rw [hval]
              by_contra hcon
              have hpar : p.is_parallel = true := by
                cases hb : p.is_parallel
                · exact absurd hb hcon
                · rfl
              have hmem : p ∈ db := List.mem_of_find?_eq_some hf
              have hgroup : p.fragment_type = .group := by
                cases ht : p.fragment_type
                · exact absurd hpar (by simp [hinv p hmem ht])
                · rfl
              exact hnpar ⟨pid, p, hp, hf, hgroup, hpar⟩
    have hred : fragment_eligible db fragment =
        (find_siblings db fragment.chain_id fragment.parent_fragment_id).all
          (fun sibling =>
            !(decide (sibling.sequence < fragment.sequence)) || sibling.status.is_terminal) := by
      simp [fragment_eligible, can_execute_with_siblings, hsp]
    rw [hred, List.all_eq_true]
    constructor
    · intro hall s hs hchain hparent hlt
      have hmem : s ∈ find_siblings db fragment.chain_id fragment.parent_fragment_id := by
        unfold find_siblings
        rw [mem_sortBySequence, List.mem_filter]
        exact ⟨hs, by simp [hchain, hparent]⟩
      have := hall s hmem
      rcases Bool.or_eq_true_iff.mp this with h | h
      · rw [Bool.not_eq_eq_eq_not] at h
        simp at h
        omega
      · exact h
    · intro hall s hs
      unfold find_siblings at hs
      rw [mem_sortBySequence, List.mem_filter] at hs
      obtain ⟨hmem, hcond⟩ := hs
      have hchain : s.chain_id = fragment.chain_id := by
        have := (Bool.and_eq_true_iff.mp hcond).1
        simpa using this
      have hparent : s.parent_fragment_id = fragment.parent_fragment_id := by
        have := (Bool.and_eq_true_iff.mp hcond).2
        simpa using this
      by_cases hlt : s.sequence < fragment.sequence
      · have := hall s hmem hchain hparent hlt
        simp [this]
      · simp [hlt]

/-- A parallel group row used in the C3 witness. -/
def c3Group : Fragment :=
  { c1Fragment with
    id := 20, chain_id := 30, fragment_type := .group, run_script := none,
    is_parallel := true, status := .active }

/-- A child of `c3Group` used in the C3 witness. -/
def c3Child : Fragment :=
  { c1Fragment with
    id := 21, chain_id := 30, parent_fragment_id := some 20, sequence := 1 }

/-- Witness for C3: a child of a parallel group is eligible unconditionally. -/
theorem C3_sibling_eligibility_witness :
    fragment_eligible [c3Group, c3Child] c3Child = true :=
  (C3_sibling_eligibility [c3Group, c3Child] c3Child (by decide)).1
    ⟨20, c3Group, rfl, rfl, rfl, rfl⟩

/-! ## Visited-set monotonicity of the compiler -/

/-- A URL placed in the resolution set stays there: every parser step only
grows `visited`.  (The source inserts into the `HashSet` in `resolve_import`
and never removes; this is the formal core of the C6 analysis.) -/
theorem parser_visited_mono (fetcher : Fetcher) : ∀ fuel : Nat,
    (∀ node dm st pctx,
      st.visited ⊆ (parse_node fetcher fuel node dm st pctx).1.visited) ∧
    (∀ node dm st pctx,
      st.visited ⊆ (parse_fragment fetcher fuel node dm st pctx).1.visited) ∧
    (∀ url dm st pctx,
      st.visited ⊆ (resolve_import fetcher fuel url dm st pctx).1.visited) ∧
    (∀ nodes su dm st,
      st.visited ⊆ (parse_file_nodes fetcher fuel nodes su dm st).1.visited) ∧
    (∀ node dm st pctx,
      st.visited ⊆ (parse_parallel fetcher fuel node dm st pctx).1.visited) ∧
    (∀ nodes dm st gid seq,
      st.visited ⊆ (parse_parallel_children fetcher fuel nodes dm st gid seq).1.visited) ∧
    (∀ nodes dm st seq,
      st.visited ⊆ (parse_root_nodes fetcher fuel nodes dm st seq).1.visited) := by
  intro fuel
  induction fuel with
  | zero =>
      refine ⟨?_, ?_, ?_, ?_, ?_, ?_, ?_⟩ <;>
        · intros
          simp [parse_node, parse_fragment, resolve_import, parse_file_nodes,
            parse_parallel, parse_parallel_children, parse_root_nodes]
  | succ fuel ih =>
      obtain ⟨ihn, ihf, ihi, ihfile, ihp, ihpc, ihr⟩ := ih
      have hnode : ∀ node dm st pctx,
          st.visited ⊆ (parse_node fetcher (fuel + 1) node dm st pctx).1.visited := by
        intro node dm st pctx
        simp only [parse_node]
        by_cases h1 : (node.name == "fragment") = true
        · simpa [h1] using ihf node dm st pctx
        · by_cases h2 : (node.name == "parallel") = true
          · simpa [h1, h2] using ihp node dm st pctx
          · simp [h1, h2]
      have hfrag : ∀ node dm st pctx,
          st.visited ⊆ (parse_fragment fetcher (fuel + 1) node dm st pctx).1.visited := by
        intro node dm st pctx
        simp only [parse_fragment]
        cases hfu : node.children.bind (fun c => get_string_value c "from") with
        | none =>
            cases hrs : node.children.bind (fun c => get_string_value c "run") with
            | none => simp
            | some script => simp [freshId]
        | some url =>
            cases hrs : node.children.bind (fun c => get_string_value c "run") with
            | none => exact ihi url dm st pctx
            | some script => simp
      have himp : ∀ url dm st pctx,
          st.visited ⊆ (resolve_import fetcher (fuel + 1) url dm st pctx).1.visited := by
        intro url dm st pctx
        simp only [resolve_import]
        by_cases hv : url ∈ st.visited
        · simp [hv]
        · simp only [if_neg hv]
          cases hf : fetch fetcher url with
          | none => simp [List.subset_cons_self]
          | some doc =>
              rcases hpf : parse_file_nodes fetcher fuel doc url dm
                  { st with visited := url :: st.visited } with ⟨st', r⟩
              have hsub : (url :: st.visited) ⊆ st'.visited := by
                have := ihfile doc url dm { st with visited := url :: st.visited }
                rw [hpf] at this
                exact this
              have hsub' : st.visited ⊆ st'.visited :=
                (List.subset_cons_self url st.visited).trans hsub
              cases r with
              | error e => simp [hpf, hsub']
              | ok fragments =>
                  cases pctx with
                  | none => simp [hpf, hsub']
                  | some pid => simp [hpf, hsub']
      have hfile : ∀ nodes su dm st,
          st.visited ⊆ (parse_file_nodes fetcher (fuel + 1) nodes su dm st).1.visited := by
        intro nodes su dm st
        simp only [parse_file_nodes]
        cases nodes with
        | nil => simp
        | cons node rest =>
            by_cases hname : (node.name == "fragment" || node.name == "parallel") = true
            · simp only [if_pos hname]
              rcases hpn : parse_node fetcher fuel node dm st none with ⟨st1, r1⟩
              have hsub1 : st.visited ⊆ st1.visited := by
                have := ihn node dm st none
                rw [hpn] at this
                exact this
              cases r1 with
              | error e => simp [hsub1]
              | ok parsed =>
                  rcases hrest : parse_file_nodes fetcher fuel rest su dm st1 with ⟨st2, r2⟩
                  have hsub2 : st1.visited ⊆ st2.visited := by
                    have := ihfile rest su dm st1
                    rw [hrest] at this
                    exact this
                  cases r2 with
                  | error e => simp [hrest, hsub1.trans hsub2]
                  | ok more => simp [hrest, hsub1.trans hsub2]
            · simp [hname]
      have hpar : ∀ node dm st pctx,
          st.visited ⊆ (parse_parallel fetcher (fuel + 1) node dm st pctx).1.visited := by
        intro node dm st pctx
        simp only [parse_parallel]
        cases hch : node.children with
        | none => cases pctx <;> simp [freshId]
        | some children =>
            have hfi : (freshId st).2.visited = st.visited := rfl
            rcases hpc : parse_parallel_children fetcher fuel children dm
                (freshId st).2 (freshId st).1 0 with ⟨st', r⟩
            have hsub : st.visited ⊆ st'.visited := by
              have := ihpc children dm (freshId st).2 (freshId st).1 0
              rw [hpc] at this
              rw [← hfi]
              exact this
            cases r with
            | error e => cases pctx <;> simp [hpc, hsub]
            | ok frags => cases pctx <;> simp [hpc, hsub]
      have hparc : ∀ nodes dm st gid seq,
          st.visited ⊆
            (parse_parallel_children fetcher (fuel + 1) nodes dm st gid seq).1.visited := by
        intro nodes dm st gid seq
        simp only [parse_parallel_children]
        cases nodes with
        | nil => simp
        | cons node rest =>
            rcases hpn : parse_node fetcher fuel node dm st (some gid) with ⟨st1, r1⟩
            have hsub1 : st.visited ⊆ st1.visited := by
              have := ihn node dm st (some gid)
              rw [hpn] at this
              exact this
            cases r1 with
            | error e => simp [hpn, hsub1]
            | ok parsed =>
                rcases hrest : parse_parallel_children fetcher fuel rest dm st1 gid
                    (assign_sequences (some gid) seq parsed).2 with ⟨st2, r2⟩
                have hsub2 : st1.visited ⊆ st2.visited := by
                  have := ihpc rest dm st1 gid (assign_sequences (some gid) seq parsed).2
                  rw [hrest] at this
                  exact this
                cases r2 with
                | error e => simp [hpn, hrest, hsub1.trans hsub2]
                | ok more => simp [hpn, hrest, hsub1.trans hsub2]
      have hroot : ∀ nodes dm st seq,
          st.visited ⊆ (parse_root_nodes fetcher (fuel + 1) nodes dm st seq).1.visited := by
        intro nodes dm st seq
        simp only [parse_root_nodes]
        cases nodes with
        | nil => simp
        | cons node rest =>
            by_cases hname : (node.name == "machine") = true
            · have := ihr rest dm st seq
              simpa [hname] using this
            · simp only [if_neg hname]
              rcases hpn : parse_node fetcher fuel node dm st none with ⟨st1, r1⟩
              have hsub1 : st.visited ⊆ st1.visited := by
                have := ihn node dm st none
                rw [hpn] at this
                exact this
              cases r1 with
              | error e => simp [hsub1]
              | ok parsed =>
                  rcases hrest : parse_root_nodes fetcher fuel rest dm st1
                      (assign_sequences none seq parsed).2 with ⟨st2, r2⟩
                  have hsub2 : st1.visited ⊆ st2.visited := by
                    have := ihr rest dm st1 (assign_sequences none seq parsed).2
                    rw [hrest] at this
                    exact this
                  cases r2 with
                  | error e => simp [hrest, hsub1.trans hsub2]
                  | ok more => simp [hrest, hsub1.trans hsub2]
      exact ⟨hnode, hfrag, himp, hfile, hpar, hparc, hroot⟩

/-! ## C6 -/

/-- A `fragment { from "<url>" }` node. -/
def importFragmentNode (url : String) : KdlNode :=
  .mk "fragment" [] (some [.mk "from" [some url] none])

/-- A `fragment { run "<script>" }` node. -/
def runFragmentNode (script : String) : KdlNode :=
  .mk "fragment" [] (some [.mk "run" [some script] none])

/-- An acyclic diamond import graph: the workflow imports `b` and `c`, and
both import `d`, which holds one inline fragment. -/
def diamondFetcher : Fetcher :=
  [("b", [importFragmentNode "d"]),
   ("c", [importFragmentNode "d"]),
   ("d", [runFragmentNode "x"])]

/-- The workflow document at the top of the diamond. -/
def diamondDoc : KdlDocument :=
  [.mk "version" [some "0.1"] none,
   .mk "triggers" [some "push"] none,
   .mk "chain" [] (some
     [.mk "machine" [some "m"] none,
      importFragmentNode "b",
      importFragmentNode "c"])]

/-- **C6, counterexample**: `resolve_import` never removes a URL from the
visited set, so in the acyclic diamond (workflow → b → d, workflow → c → d)
the second import of `d` fails with `CircularImport "d"` instead of both
imports resolving, refuting the claim at this concrete input. -/
theorem C6_counterexample :
    parse_workflow diamondFetcher 40 diamondDoc none
      = .error (.circularImport "d") ∧
    ∀ chain, parse_workflow diamondFetcher 40 diamondDoc none ≠ .ok chain := by
  have h : parse_workflow diamondFetcher 40 diamondDoc none
      = .error (.circularImport "d") := by rfl
  refine ⟨h, ?_⟩
  intro chain hcontra
  rw [h] at hcontra
  exact Except.noConfusion hcontra

/-- **C6, amended**: during import resolution a URL placed in the resolution
set is never removed — `resolve_import` only grows the set — and
consequently an acyclic diamond, where the same URL is imported along two
distinct non-nested paths, fails with `CircularImport` on its second import
rather than resolving both. -/
theorem C6_amended_visited_grows :
    (∀ (fetcher : Fetcher) (fuel : Nat) (url default_machine : String)
        (st : ParserState) (parent_id : Option Nat),
      st.visited ⊆
        (resolve_import fetcher fuel url default_machine st parent_id).1.visited) ∧
    parse_workflow diamondFetcher 40 diamondDoc none
      = .error (.circularImport "d") := by
  constructor
  · intro fetcher fuel url dm st pctx
    exact (parser_visited_mono fetcher fuel).2.2.1 url dm st pctx
  · rfl

/-! ## C5 -/

/-- A fetcher whose import graph contains the cycle `a → a`;
the URL `x` is not fetchable. -/
def cycleFetcher : Fetcher := [("a", [importFragmentNode "a"])]

/-- A workflow that imports the unfetchable `x` before the cyclic `a`. -/
def cycleDoc : KdlDocument :=
  [.mk "version" [some "0.1"] none,
   .mk "triggers" [some "push"] none,
   .mk "chain" [] (some
     [.mk "machine" [some "m"] none,
      importFragmentNode "x",
      importFragmentNode "a"])]

/-- **C5, counterexample**: the claim promises `CircularImport` for *every*
workflow whose import graph contains a cycle, but another parse error can
preempt the cycle.  Here the graph has the cycle `a → a` (the fetcher maps
`a` to a document importing `a`), yet parsing fails with `FetchFailed` on the
earlier import `x` and never returns `CircularImport`. -/
theorem C5_counterexample :
    fetch cycleFetcher "a" = some [importFragmentNode "a"] ∧
    parse_workflow cycleFetcher 40 cycleDoc none
      = .error (.fetchFailed "x" "not found") ∧
    ∀ url, parse_workflow cycleFetcher 40 cycleDoc none
      ≠ .error (.circularImport url) := by
  have h : parse_workflow cycleFetcher 40 cycleDoc none
      = .error (.fetchFailed "x" "not found") := by rfl
  refine ⟨rfl, h, ?_⟩
  intro url hcontra
  rw [h] at hcontra
  simp at hcontra

/-- **C5, amended**: whenever import resolution encounters a URL already in
the resolution set (which includes the workflow's own source URL), it returns
the `CircularImport` error for that URL; and whenever parsing fails with any
error, the parse endpoint leaves the chains and fragments tables exactly as
they were — no chain record and no fragment records are stored for the
request. -/
theorem C5_amended_circular_and_no_insert :
    (∀ (fetcher : Fetcher) (fuel : Nat) (url default_machine : String)
        (st : ParserState) (parent_id : Option Nat),
      0 < fuel → url ∈ st.visited →
      resolve_import fetcher fuel url default_machine st parent_id
        = (st, .error (.circularImport url))) ∧
    (∀ (fuel : Nat) (request : ParseRequest) (cdb : ChainDb) (fdb : FragmentDb)
        (now : Nat) (e : ApiError),
      (parse_workflow_handler fuel request cdb fdb now).2.2 = .error e →
      (parse_workflow_handler fuel request cdb fdb now).1 = cdb ∧
      (parse_workflow_handler fuel request cdb fdb now).2.1 = fdb) := by
  constructor
  · intro fetcher fuel url dm st pctx hfuel hmem
    cases fuel with
    | zero => omega
    | succ fuel => simp [resolve_import, hmem]
  · intro fuel request cdb fdb now e h
    unfold parse_workflow_handler at h ⊢
    cases htr : request.trigger with
    | none =>
        cases hsp : service_parse_without_trigger_validation NoOpFetcher fuel
            request.content
            { (WorkflowContext.new request.tenant_id) with
              source_file_path := request.source_file_path
              repository_url := request.repository_url
              commit_sha := request.commit_sha
              branch := request.branch } with
        | error e' => simp [htr, hsp]
        | ok parsed => simp [htr, hsp] at h
    | some trigger_string =>
        cases hpt : parse_trigger_type trigger_string with
        | error e' => simp [htr, hpt]
        | ok trigger_type =>
            cases hsp : service_parse NoOpFetcher fuel request.content
                { (WorkflowContext.new request.tenant_id) with
                  source_file_path := request.source_file_path
                  repository_url := request.repository_url
                  commit_sha := request.commit_sha
                  branch := request.branch
                  trigger := some trigger_type
                  trigger_ref := request.trigger_ref } with
            | error e' => simp [htr, hpt, hsp]
            | ok parsed => simp [htr, hpt, hsp] at h

/-- An empty parse request (no version node in the content). -/
def emptyParseRequest : ParseRequest :=
  { content := []
    tenant_id := 0
    source_file_path := none
    repository_url := none
    commit_sha := none
    branch := none
    trigger := none
    trigger_ref := none }

/-- Witness for the amended C5: a self-import with the URL already on the
stack, and a failing request that stores nothing. -/
theorem C5_amended_circular_and_no_insert_witness :
    resolve_import [] 1 "u" "m" { next_id := 0, visited := ["u"] } none
      = ({ next_id := 0, visited := ["u"] }, .error (.circularImport "u")) ∧
    ((parse_workflow_handler 1 emptyParseRequest [] [] 0).1 = [] ∧
     (parse_workflow_handler 1 emptyParseRequest [] [] 0).2.1 = []) := by
  constructor
  · exact C5_amended_circular_and_no_insert.1 [] 1 "u" "m"
      { next_id := 0, visited := ["u"] } none (by decide) (by simp)
  · exact C5_amended_circular_and_no_insert.2 1 emptyParseRequest [] [] 0
      (.parseError (.missingRequired "version" "workflow root")) (by rfl)

/-! ## C10: sequence numbering of the flattened fragment list

`fragments_with_parent key frags` is the emission-ordered sublist of
fragments sharing one parent (`none` = root level).  The claim is that in a
successfully parsed workflow this sublist carries sequences 0, 1, 2, … for
every parent, which is expressed as the sublist being a fixed point of
`renumber_from 0`. -/

/-- The fragments with the given parent, in emission order. -/
def fragments_with_parent (key : Option Nat) (frags : List ParsedFragment) :
    List ParsedFragment :=
  frags.filter (fun f => f.parent_id == key)

/-- Overwrite sequences with s, s+1, s+2, … in list order. -/
def renumber_from (s : Int) : List ParsedFragment → List ParsedFragment
  | [] => []
  | f :: fs => { f with sequence := s } :: renumber_from (s + 1) fs

/-- A sibling list is numbered s, s+1, … exactly when renumbering from `s`
changes nothing. -/
def numbered_from (s : Int) (key : Option Nat) (frags : List ParsedFragment) : Prop :=
  fragments_with_parent key frags
    = renumber_from s (fragments_with_parent key frags)

theorem fragments_with_parent_append (key : Option Nat) (A B : List ParsedFragment) :
    fragments_with_parent key (A ++ B)
      = fragments_with_parent key A ++ fragments_with_parent key B := by
  simp [fragments_with_parent, List.filter_append]

theorem renumber_from_append (s : Int) (A B : List ParsedFragment) :
    renumber_from s (A ++ B)
      = renumber_from s A ++ renumber_from (s + A.length) B := by
  induction A generalizing s with
  | nil => simp [renumber_from]
  | cons f fs ih =>
      simp only [List.cons_append, renumber_from, List.append_eq, ih (s + 1),
        List.length_cons]
      rw [show s + 1 + (fs.length : Int) = s + ((fs.length + 1 : Nat) : Int) by
        push_cast; ring]

theorem renumber_from_length (s : Int) (l : List ParsedFragment) :
    (renumber_from s l).length = l.length := by
  induction l generalizing s with
  | nil => rfl
  | cons f fs ih => simp [renumber_from, ih]

theorem renumber_from_renumber_from (s : Int) (l : List ParsedFragment) :
    renumber_from s (renumber_from s l) = renumber_from s l := by
  induction l generalizing s with
  | nil => rfl
  | cons f fs ih => simp [renumber_from, ih]

theorem numbered_from_nil (s : Int) (key : Option Nat) (l : List ParsedFragment)
    (h : fragments_with_parent key l = []) : numbered_from s key l := by
  unfold numbered_from
  rw [h]
  rfl

theorem numbered_from_append (s : Int) (key : Option Nat) (A B : List ParsedFragment)
    (hA : numbered_from s key A)
    (hB : numbered_from (s + (fragments_with_parent key A).length) key B) :
    numbered_from s key (A ++ B) := by
  unfold numbered_from at *
  rw [fragments_with_parent_append, renumber_from_append, ← hA, ← hB]

theorem numbered_from_append_left (s : Int) (key : Option Nat)
    (A B : List ParsedFragment) (hB : fragments_with_parent key B = [])
    (hA : numbered_from s key A) : numbered_from s key (A ++ B) := by
  unfold numbered_from at *
  rw [fragments_with_parent_append, hB, List.append_nil]
  exact hA

theorem numbered_from_append_right (s : Int) (key : Option Nat)
    (A B : List ParsedFragment) (hA : fragments_with_parent key A = [])
    (hB : numbered_from s key B) : numbered_from s key (A ++ B) := by
  unfold numbered_from at *
  rw [fragments_with_parent_append, hA, List.nil_append]
  exact hB

theorem fragments_with_parent_eq_nil (key : Option Nat) (l : List ParsedFragment)
    (h : ∀ f ∈ l, f.parent_id ≠ key) : fragments_with_parent key l = [] := by
  unfold fragments_with_parent
  rw [List.filter_eq_nil_iff]
  intro f hf
  simp [h f hf]

theorem exists_of_fragments_with_parent_ne_nil (key : Option Nat)
    (l : List ParsedFragment) (h : fragments_with_parent key l ≠ []) :
    ∃ f ∈ l, f.parent_id = key := by
  by_contra hno
  push_neg at hno
  exact h (fragments_with_parent_eq_nil key l hno)

/-- The sequences of a `numbered_from` sibling list are `s + index`. -/
theorem numbered_from_get? (s : Int) (l : List ParsedFragment)
    (h : l = renumber_from s l) :
    ∀ (i : Nat) (f : ParsedFragment), l.get? i = some f → f.sequence = s + i := by
  induction l generalizing s with
  | nil => intro i f hf; simp at hf
  | cons g gs ih =>
      intro i f hf
      rw [renumber_from] at h
      have h1 : g = { g with sequence := s } := by
        exact (List.cons_eq_cons.mp h).1
      have h2 : gs = renumber_from (s + 1) gs := (List.cons_eq_cons.mp h).2
      cases i with
      | zero =>
          rw [List.get?_cons_zero] at hf
          cases hf
          have := congrArg ParsedFragment.sequence h1
          simpa using this
      | succ i =>
          rw [List.get?_cons_succ] at hf
          have := ih (s + 1) h2 i f hf
          omega

/-! Behaviour of `assign_sequences` (the sequence-assignment loop body). -/

theorem assign_sequences_counter (key : Option Nat) (s : Int)
    (l : List ParsedFragment) :
    (assign_sequences key s l).2 = s + (fragments_with_parent key l).length := by
  induction l generalizing s with
  | nil => simp [assign_sequences, fragments_with_parent]
  | cons f fs ih =>
      unfold fragments_with_parent at *
      by_cases h : (f.parent_id == key) = true
      · simp only [assign_sequences, List.filter_cons, if_pos h,
          List.length_cons, ih (s + 1)]
        omega
      · simp only [assign_sequences, List.filter_cons, if_neg h, ih s]

theorem assign_sequences_same_key (key : Option Nat) (s : Int)
    (l : List ParsedFragment) :
    fragments_with_parent key (assign_sequences key s l).1
      = renumber_from s (fragments_with_parent key l) := by
  induction l generalizing s with
  | nil => simp [assign_sequences, fragments_with_parent, renumber_from]
  | cons f fs ih =>
      by_cases h : (f.parent_id == key) = true
      · have hpar : (({ f with sequence := s } : ParsedFragment).parent_id == key)
            = true := h
        simp only [assign_sequences, fragments_with_parent, List.filter_cons,
          if_pos h, if_pos hpar, renumber_from]
        unfold fragments_with_parent at ih
        rw [ih (s + 1)]
      · simp only [assign_sequences, fragments_with_parent, List.filter_cons,
          if_neg h]
        unfold fragments_with_parent at ih
        exact ih s

theorem assign_sequences_other_key (key key' : Option Nat) (hne : key' ≠ key)
    (s : Int) (l : List ParsedFragment) :
    fragments_with_parent key' (assign_sequences key s l).1
      = fragments_with_parent key' l := by
  induction l generalizing s with
  | nil => simp [assign_sequences]
  | cons f fs ih =>
      by_cases h : (f.parent_id == key) = true
      · have hf : f.parent_id = key := by simpa using h
        have hne' : ¬ ((({ f with sequence := s } : ParsedFragment).parent_id == key')
            = true) := by
          show ¬ ((f.parent_id == key') = true)
          simp only [hf, beq_iff_eq]
          exact Ne.symm hne
        have hne'' : ¬ ((f.parent_id == key') = true) := by
          simp only [hf, beq_iff_eq]
          exact Ne.symm hne
        simp only [assign_sequences, fragments_with_parent, List.filter_cons,
          if_pos h, if_neg hne', if_neg hne'']
        unfold fragments_with_parent at ih
        exact ih (s + 1)
      · by_cases h' : (f.parent_id == key') = true
        · simp only [assign_sequences, fragments_with_parent, List.filter_cons,
            if_neg h, if_pos h']
          unfold fragments_with_parent at ih
          rw [ih s]
        · simp only [assign_sequences, fragments_with_parent, List.filter_cons,
            if_neg h, if_neg h']
          unfold fragments_with_parent at ih
          exact ih s

theorem assign_sequences_parent (key : Option Nat) (s : Int)
    (l : List ParsedFragment) :
    ∀ f' ∈ (assign_sequences key s l).1, ∃ f ∈ l, f'.parent_id = f.parent_id := by
  induction l generalizing s with
  | nil => simp [assign_sequences]
  | cons f fs ih =>
      intro f' hf'
      by_cases h : (f.parent_id == key) = true
      · simp only [assign_sequences, if_pos h, List.mem_cons] at hf'
        rcases hf' with rfl | hf'
        · exact ⟨f, List.mem_cons_self f fs, rfl⟩
        · obtain ⟨g, hg, hpar⟩ := ih (s + 1) f' hf'
          exact ⟨g, List.mem_cons_of_mem f hg, hpar⟩
      · simp only [assign_sequences, if_neg h, List.mem_cons] at hf'
        rcases hf' with rfl | hf'
        · exact ⟨_, List.mem_cons_self _ fs, rfl⟩
        · obtain ⟨g, hg, hpar⟩ := ih s f' hf'
          exact ⟨g, List.mem_cons_of_mem _ hg, hpar⟩

/-- A fragment whose parent is not the key is invisible to that key's sibling
list. -/
theorem fragments_with_parent_cons_ne (key : Option Nat) (g : ParsedFragment)
    (l : List ParsedFragment) (h : g.parent_id ≠ key) :
    fragments_with_parent key (g :: l) = fragments_with_parent key l := by
  unfold fragments_with_parent
  rw [List.filter_cons, if_neg (by simp [h])]

/-- Filtering by parent commutes with a parent-preserving map. -/
theorem fragments_with_parent_map (m : ParsedFragment → ParsedFragment)
    (hp : ∀ f, (m f).parent_id = f.parent_id) (key : Option Nat)
    (l : List ParsedFragment) :
    fragments_with_parent key (l.map m) = (fragments_with_parent key l).map m := by
  induction l with
  | nil => rfl
  | cons f fs ih =>
      unfold fragments_with_parent at *
      rw [List.map_cons, List.filter_cons, List.filter_cons]
      by_cases h : (f.parent_id == key) = true
      · rw [if_pos (by simp only [hp]; exact h), if_pos h, List.map_cons, ih]
      · rw [if_neg (by simp only [hp]; exact h), if_neg h, ih]

/-- Renumbering commutes with a map that commutes with sequence updates. -/
theorem renumber_from_map (m : ParsedFragment → ParsedFragment)
    (hcomm : ∀ f x, m { f with sequence := x } = { m f with sequence := x })
    (s : Int) (l : List ParsedFragment) :
    renumber_from s (l.map m) = (renumber_from s l).map m := by
  induction l generalizing s with
  | nil => rfl
  | cons f fs ih =>
      rw [List.map_cons, renumber_from, renumber_from, List.map_cons, ih (s + 1),
        hcomm f s]

/-- `numbered_from` survives a parent- and sequence-preserving map. -/
theorem numbered_from_map (m : ParsedFragment → ParsedFragment)
    (hp : ∀ f, (m f).parent_id = f.parent_id)
    (hcomm : ∀ f x, m { f with sequence := x } = { m f with sequence := x })
    (s : Int) (key : Option Nat) (l : List ParsedFragment)
    (h : numbered_from s key l) : numbered_from s key (l.map m) := by
  unfold numbered_from at *
  rw [fragments_with_parent_map m hp, renumber_from_map m hcomm, ← h]

/-- The per-batch invariant of the flattening recursion: every fragment of the
batch either hangs off the surrounding parent context `pctx` or off a group
allocated inside the batch (an id in `[lo, hi)`), and every sibling list
except the context's own is already finally numbered 0, 1, 2, …. -/
def batch_ok (pctx : Option Nat) (lo hi : Nat) (frags : List ParsedFragment) : Prop :=
  (∀ f ∈ frags, f.parent_id = pctx ∨ ∃ g, f.parent_id = some g ∧ lo ≤ g ∧ g < hi) ∧
  (∀ key, key ≠ pctx → numbered_from 0 key frags)

theorem batch_ok_nil (pctx : Option Nat) (lo hi : Nat) : batch_ok pctx lo hi [] := by
  refine ⟨by simp, fun key _ => numbered_from_nil 0 key [] rfl⟩

theorem batch_ok_widen (pctx : Option Nat) (lo hi lo' hi' : Nat)
    (hlo : lo' ≤ lo) (hhi : hi ≤ hi') (frags : List ParsedFragment)
    (h : batch_ok pctx lo hi frags) : batch_ok pctx lo' hi' frags := by
  refine ⟨fun f hf => ?_, h.2⟩
  rcases h.1 f hf with hp | ⟨g, hg, h1, h2⟩
  · exact Or.inl hp
  · exact Or.inr ⟨g, hg, le_trans hlo h1, lt_of_lt_of_le h2 hhi⟩

/-- Two adjacent batches over the same parent context compose. -/
theorem batch_ok_append (pctx : Option Nat) (lo mid hi : Nat)
    (A B : List ParsedFragment) (hlm : lo ≤ mid) (hmh : mid ≤ hi)
    (hA : batch_ok pctx lo mid A) (hB : batch_ok pctx mid hi B) :
    batch_ok pctx lo hi (A ++ B) := by
  constructor
  · intro f hf
    rcases List.mem_append.mp hf with hfa | hfb
    · rcases hA.1 f hfa with hp | ⟨g, hg, h1, h2⟩
      · exact Or.inl hp
      · exact Or.inr ⟨g, hg, h1, by omega⟩
    · rcases hB.1 f hfb with hp | ⟨g, hg, h1, h2⟩
      · exact Or.inl hp
      · exact Or.inr ⟨g, hg, by omega, h2⟩
  · intro key hkey
    by_cases hAe : fragments_with_parent key A = []
    · exact numbered_from_append_right 0 key A B hAe (hB.2 key hkey)
    · obtain ⟨f, hfA, hfp⟩ := exists_of_fragments_with_parent_ne_nil key A hAe
      have hBe : fragments_with_parent key B = [] := by
        apply fragments_with_parent_eq_nil
        intro f' hf' hc
        rcases hA.1 f hfA with hp | ⟨g, hg, h1, h2⟩
        · exact hkey (by rw [← hfp, hp])
        · rcases hB.1 f' hf' with hp' | ⟨g', hg', h1', h2'⟩
          · exact hkey (by rw [← hc, hp'])
          · rw [hfp] at hg
            rw [hc] at hg'
            rw [hg] at hg'
            have hgg : g = g' := by injection hg'
            omega
      exact numbered_from_append_left 0 key A B hBe (hA.2 key hkey)


/-- Rewriting `parent_id = none` to `some pid` hides fragments from the root
key and from no other key but `some pid`. -/
theorem fragments_with_parent_rewrite_none (pid : Nat) (key : Option Nat)
    (hk1 : key ≠ none) (hk2 : key ≠ some pid) (l : List ParsedFragment) :
    fragments_with_parent key
        (l.map (fun f => if f.parent_id.isNone then { f with parent_id := some pid }
          else f))
      = fragments_with_parent key l := by
  induction l with
  | nil => rfl
  | cons f fs ih =>
      rw [List.map_cons]
      cases hfp : f.parent_id with
      | none =>
          rw [if_pos (show (none : Option Nat).isNone = true from rfl)]
          rw [fragments_with_parent_cons_ne key _ _ (show _ ≠ key from Ne.symm hk2)]
          rw [fragments_with_parent_cons_ne key f fs (by rw [hfp]; exact Ne.symm hk1)]
          exact ih
      | some g =>
          rw [if_neg (show ¬ ((some g : Option Nat).isNone = true) by simp)]
          unfold fragments_with_parent at *
          rw [List.filter_cons, List.filter_cons]
          by_cases hkey : (f.parent_id == key) = true
          · rw [if_pos hkey, if_pos hkey, ih]
          · rw [if_neg hkey, if_neg hkey, ih]

/-- After the rewrite no fragment keeps a `none` parent. -/
theorem fragments_with_parent_rewrite_none_root (pid : Nat)
    (l : List ParsedFragment) :
    fragments_with_parent none
        (l.map (fun f => if f.parent_id.isNone then { f with parent_id := some pid }
          else f))
      = [] := by
  apply fragments_with_parent_eq_nil
  intro f' hf'
  obtain ⟨f, _, hmap⟩ := List.mem_map.mp hf'
  subst hmap
  cases hfp : f.parent_id with
  | none => simp [hfp]
  | some g => simp [hfp]

set_option maxHeartbeats 1000000

/-- Master fuel induction for the sequence-numbering invariant: every parser
function moves the fresh-id counter forward and returns a batch that is
`batch_ok` for its parent context, and the two numbering loops additionally
return batches whose direct children of the loop's key are numbered from the
incoming counter. -/
theorem parser_seq_inv (fetcher : Fetcher) : ∀ fuel : Nat,
    (∀ node dm st pctx st' frags,
      parse_node fetcher fuel node dm st pctx = (st', .ok frags) →
      st.next_id ≤ st'.next_id ∧ batch_ok pctx st.next_id st'.next_id frags) ∧
    (∀ node dm st pctx st' frags,
      parse_fragment fetcher fuel node dm st pctx = (st', .ok frags) →
      st.next_id ≤ st'.next_id ∧ batch_ok pctx st.next_id st'.next_id frags) ∧
    (∀ url dm st pctx st' frags,
      resolve_import fetcher fuel url dm st pctx = (st', .ok frags) →
      st.next_id ≤ st'.next_id ∧ batch_ok pctx st.next_id st'.next_id frags) ∧
    (∀ nodes su dm st st' frags,
      parse_file_nodes fetcher fuel nodes su dm st = (st', .ok frags) →
      st.next_id ≤ st'.next_id ∧ batch_ok none st.next_id st'.next_id frags) ∧
    (∀ node dm st pctx st' frags,
      parse_parallel fetcher fuel node dm st pctx = (st', .ok frags) →
      st.next_id ≤ st'.next_id ∧ batch_ok pctx st.next_id st'.next_id frags) ∧
    (∀ nodes dm st gid seq st' frags,
      parse_parallel_children fetcher fuel nodes dm st gid seq = (st', .ok frags) →
      st.next_id ≤ st'.next_id ∧ batch_ok (some gid) st.next_id st'.next_id frags ∧
      numbered_from seq (some gid) frags) ∧
    (∀ nodes dm st seq st' frags,
      parse_root_nodes fetcher fuel nodes dm st seq = (st', .ok frags) →
      st.next_id ≤ st'.next_id ∧ batch_ok none st.next_id st'.next_id frags ∧
      numbered_from seq none frags) := by
  intro fuel
  induction fuel with
  | zero =>
      exact ⟨fun node dm st pctx st' frags h => by simp [parse_node] at h,
        fun node dm st pctx st' frags h => by simp [parse_fragment] at h,
        fun url dm st pctx st' frags h => by simp [resolve_import] at h,
        fun nodes su dm st st' frags h => by simp [parse_file_nodes] at h,
        fun node dm st pctx st' frags h => by simp [parse_parallel] at h,
        fun nodes dm st gid seq st' frags h => by simp [parse_parallel_children] at h,
        fun nodes dm st seq st' frags h => by simp [parse_root_nodes] at h⟩
  | succ fuel ih =>
      obtain ⟨ihn, ihf, ihi, ihfile, ihp, ihpc, ihr⟩ := ih
      have hnode : ∀ node dm st pctx st' frags,
          parse_node fetcher (fuel + 1) node dm st pctx = (st', .ok frags) →
          st.next_id ≤ st'.next_id ∧ batch_ok pctx st.next_id st'.next_id frags := by
        intro node dm st pctx st' frags h
        simp only [parse_node] at h
        by_cases h1 : (node.name == "fragment") = true
        · rw [if_pos h1] at h
          exact ihf node dm st pctx st' frags h
        · rw [if_neg h1] at h
          by_cases h2 : (node.name == "parallel") = true
          · rw [if_pos h2] at h
            exact ihp node dm st pctx st' frags h
          · rw [if_neg h2] at h
            simp at h
      have hfrag : ∀ node dm st pctx st' frags,
          parse_fragment fetcher (fuel + 1) node dm st pctx = (st', .ok frags) →
          st.next_id ≤ st'.next_id ∧ batch_ok pctx st.next_id st'.next_id frags := by
        intro node dm st pctx st' frags h
        simp only [parse_fragment] at h
        rcases hfu : node.children.bind (fun c => get_string_value c "from") with _ | url <;>
          rcases hrs : node.children.bind (fun c => get_string_value c "run") with _ | script <;>
            simp only [hfu, hrs] at h
        · simp at h
        · -- inline fragment
          rcases hc : node.children.bind (fun c => get_string_value c "condition") with _ | cond <;>
            simp only [hc, freshId] at h <;>
            cases pctx with
            | none =>
                rw [Prod.mk.injEq] at h
                obtain ⟨hst, hfr⟩ := h
                injection hfr with hfr
                subst hst
                subst hfr
                refine ⟨by simp, ⟨?_, ?_⟩⟩
                · intro f hf
                  rw [List.mem_singleton] at hf
                  subst hf
                  exact Or.inl rfl
                · intro key hkey
                  apply numbered_from_nil
                  apply fragments_with_parent_eq_nil
                  intro f hf
                  rw [List.mem_singleton] at hf
                  subst hf
                  simpa using Ne.symm hkey
            | some pid =>
                rw [Prod.mk.injEq] at h
                obtain ⟨hst, hfr⟩ := h
                injection hfr with hfr
                subst hst
                subst hfr
                refine ⟨by simp, ⟨?_, ?_⟩⟩
                · intro f hf
                  rw [List.mem_singleton] at hf
                  subst hf
                  exact Or.inl rfl
                · intro key hkey
                  apply numbered_from_nil
                  apply fragments_with_parent_eq_nil
                  intro f hf
                  rw [List.mem_singleton] at hf
                  subst hf
                  simpa using Ne.symm hkey
        · -- import
          exact ihi url dm st pctx st' frags h
        · simp at h
      have himp : ∀ url dm st pctx st' frags,
          resolve_import fetcher (fuel + 1) url dm st pctx = (st', .ok frags) →
          st.next_id ≤ st'.next_id ∧ batch_ok pctx st.next_id st'.next_id frags := by
        intro url dm st pctx st' frags h
        simp only [resolve_import] at h
        by_cases hv : url ∈ st.visited
        · rw [if_pos hv] at h
          simp at h
        · rw [if_neg hv] at h
          cases hf : fetch fetcher url with
          | none => simp [hf] at h
          | some doc =>
              simp only [hf] at h
              rcases hpf : parse_file_nodes fetcher fuel doc url dm
                  { st with visited := url :: st.visited } with ⟨st1, r1⟩
              simp only [hpf] at h
              cases r1 with
              | error e => simp at h
              | ok inner =>
                  obtain ⟨hmono, hbatch⟩ := ihfile doc url dm
                    { st with visited := url :: st.visited } st1 inner hpf
                  cases pctx with
                  | none =>
                      rw [Prod.mk.injEq] at h
                      obtain ⟨hst, hfr⟩ := h
                      injection hfr with hfr
                      subst hst
                      subst hfr
                      exact ⟨hmono, hbatch⟩
                  | some pid =>
                      rw [Prod.mk.injEq] at h
                      obtain ⟨hst, hfr⟩ := h
                      injection hfr with hfr
                      subst hst
                      subst hfr
                      refine ⟨hmono, ⟨?_, ?_⟩⟩
                      · intro f' hf'
                        obtain ⟨f, hfmem, hmap⟩ := List.mem_map.mp hf'
                        subst hmap
                        rcases hbatch.1 f hfmem with hp | ⟨g, hg, h1, h2⟩
                        · left
                          rw [show f.parent_id.isNone = true by rw [hp]; rfl,
                            if_pos rfl]
                        · right
                          refine ⟨g, ?_, h1, h2⟩
                          rw [show f.parent_id.isNone = false by rw [hg]; rfl]
                          simp only [Bool.false_eq_true, if_false]
                          exact hg
                      · intro key hkey
                        by_cases hknone : key = none
                        · subst hknone
                          exact numbered_from_nil 0 none _
                            (fragments_with_parent_rewrite_none_root pid inner)
                        · have heq := fragments_with_parent_rewrite_none pid key
                            hknone hkey inner
                          have hnum := hbatch.2 key hknone
                          unfold numbered_from at *
                          rw [heq]
                          exact hnum
      have hsu_parent : ∀ (su : String) (f : ParsedFragment),
          ((if f.source_url.isNone then { f with source_url := some su } else f
            : ParsedFragment)).parent_id = f.parent_id := by
        intro su f
        by_cases hsu : f.source_url.isNone = true
        · rw [if_pos hsu]
        · rw [if_neg hsu]
      have hsu_comm : ∀ (su : String) (f : ParsedFragment) (x : Int),
          (if ({ f with sequence := x } : ParsedFragment).source_url.isNone then
            { { f with sequence := x } with source_url := some su }
          else { f with sequence := x })
          = ({ (if f.source_url.isNone then { f with source_url := some su } else f)
              with sequence := x } : ParsedFragment) := by
        intro su f x
        by_cases hsu : f.source_url.isNone = true
        · rw [if_pos hsu, if_pos hsu]
        · rw [if_neg hsu, if_neg hsu]
      have hfile : ∀ nodes su dm st st' frags,
          parse_file_nodes fetcher (fuel + 1) nodes su dm st = (st', .ok frags) →
          st.next_id ≤ st'.next_id ∧ batch_ok none st.next_id st'.next_id frags := by
        intro nodes su dm st st' frags h
        simp only [parse_file_nodes] at h
        cases nodes with
        | nil =>
            rw [Prod.mk.injEq] at h
            obtain ⟨hst, hfr⟩ := h
            injection hfr with hfr
            subst hst
            subst hfr
            exact ⟨le_refl _, batch_ok_nil none _ _⟩
        | cons node rest =>
            by_cases hname : (node.name == "fragment" || node.name == "parallel") = true
            · simp only [if_pos hname] at h
              rcases hpn : parse_node fetcher fuel node dm st none with ⟨st1, r1⟩
              simp only [hpn] at h
              cases r1 with
              | error e => simp at h
              | ok parsed =>
                  rcases hrest : parse_file_nodes fetcher fuel rest su dm st1 with ⟨st2, r2⟩
                  simp only [hrest] at h
                  cases r2 with
                  | error e => simp at h
                  | ok more =>
                      rw [Prod.mk.injEq] at h
                      obtain ⟨hst, hfr⟩ := h
                      injection hfr with hfr
                      subst hst
                      subst hfr
                      obtain ⟨hm1, hb1⟩ := ihn node dm st none st1 parsed hpn
                      obtain ⟨hm2, hb2⟩ := ihfile rest su dm st1 st2 more hrest
                      refine ⟨le_trans hm1 hm2, ?_⟩
                      refine batch_ok_append none st.next_id st1.next_id st2.next_id
                        _ _ hm1 hm2 ⟨?_, ?_⟩ hb2
                      · intro f' hf'
                        obtain ⟨f, hfm, hmap⟩ := List.mem_map.mp hf'
                        subst hmap
                        rw [hsu_parent su f]
                        exact hb1.1 f hfm
                      · intro key hkey
                        exact numbered_from_map _ (hsu_parent su) (hsu_comm su) 0 key
                          parsed (hb1.2 key hkey)
            · simp only [if_neg hname] at h
              simp at h
      have hpar : ∀ node dm st pctx st' frags,
          parse_parallel fetcher (fuel + 1) node dm st pctx = (st', .ok frags) →
          st.next_id ≤ st'.next_id ∧ batch_ok pctx st.next_id st'.next_id frags := by
        intro node dm st pctx st' frags h
        simp only [parse_parallel, freshId] at h
        cases hch : node.children with
        | none =>
            simp only [hch] at h
            cases pctx with
            | none =>
                rw [Prod.mk.injEq] at h
                obtain ⟨hst, hfr⟩ := h
                injection hfr with hfr
                subst hst
                subst hfr
                refine ⟨by simp, ⟨?_, ?_⟩⟩
                · intro f hf
                  rw [List.mem_singleton] at hf
                  subst hf
                  exact Or.inl rfl
                · intro key hkey
                  apply numbered_from_nil
                  apply fragments_with_parent_eq_nil
                  intro f hf
                  rw [List.mem_singleton] at hf
                  subst hf
                  simpa using Ne.symm hkey
            | some pid =>
                rw [Prod.mk.injEq] at h
                obtain ⟨hst, hfr⟩ := h
                injection hfr with hfr
                subst hst
                subst hfr
                refine ⟨by simp, ⟨?_, ?_⟩⟩
                · intro f hf
                  rw [List.mem_singleton] at hf
                  subst hf
                  exact Or.inl rfl
                · intro key hkey
                  apply numbered_from_nil
                  apply fragments_with_parent_eq_nil
                  intro f hf
                  rw [List.mem_singleton] at hf
                  subst hf
                  simpa using Ne.symm hkey
        | some children =>
            simp only [hch] at h
            rcases hpc : parse_parallel_children fetcher fuel children dm
                { next_id := st.next_id + 1, visited := st.visited } st.next_id 0
              with ⟨st2, r⟩
            simp only [hpc] at h
            cases r with
            | error e => simp at h
            | ok cfrags =>
                obtain ⟨hm2, hb2, hnum2⟩ := ihpc children dm
                  { next_id := st.next_id + 1, visited := st.visited } st.next_id 0
                  st2 cfrags hpc
                have hm2' : st.next_id + 1 ≤ st2.next_id := hm2
                cases pctx with
                | none =>
                    rw [Prod.mk.injEq] at h
                    obtain ⟨hst, hfr⟩ := h
                    injection hfr with hfr
                    subst hst
                    subst hfr
                    refine ⟨by omega, ⟨?_, ?_⟩⟩
                    · intro f hf
                      rcases List.mem_cons.mp hf with rfl | hf
                      · exact Or.inl rfl
                      · rcases hb2.1 f hf with hp | ⟨g, hg, h1, h2⟩
                        · exact Or.inr ⟨st.next_id, hp, le_refl _, by omega⟩
                        · have h1' : st.next_id + 1 ≤ g := h1
                          exact Or.inr ⟨g, hg, by omega, h2⟩
                    · intro key hkey
                      have hgne : (ParsedFragment.parallel_group st.next_id 0).parent_id
                          ≠ key := by
                        simpa using Ne.symm hkey
                      unfold numbered_from
                      rw [fragments_with_parent_cons_ne key _ cfrags hgne]
                      by_cases hkg : key = some st.next_id
                      · subst hkg
                        exact hnum2
                      · exact hb2.2 key hkg
                | some pid =>
                    rw [Prod.mk.injEq] at h
                    obtain ⟨hst, hfr⟩ := h
                    injection hfr with hfr
                    subst hst
                    subst hfr
                    refine ⟨by omega, ⟨?_, ?_⟩⟩
                    · intro f hf
                      rcases List.mem_cons.mp hf with rfl | hf
                      · exact Or.inl rfl
                      · rcases hb2.1 f hf with hp | ⟨g, hg, h1, h2⟩
                        · exact Or.inr ⟨st.next_id, hp, le_refl _, by omega⟩
                        · have h1' : st.next_id + 1 ≤ g := h1
                          exact Or.inr ⟨g, hg, by omega, h2⟩
                    · intro key hkey
                      have hgne : ({ ParsedFragment.parallel_group st.next_id 0 with
                          parent_id := some pid } : ParsedFragment).parent_id ≠ key := by
                        simpa using Ne.symm hkey
                      unfold numbered_from
                      rw [fragments_with_parent_cons_ne key _ cfrags hgne]
                      by_cases hkg : key = some st.next_id
                      · subst hkg
                        exact hnum2
                      · exact hb2.2 key hkg
      have hparc : ∀ nodes dm st gid seq st' frags,
          parse_parallel_children fetcher (fuel + 1) nodes dm st gid seq
            = (st', .ok frags) →
          st.next_id ≤ st'.next_id ∧ batch_ok (some gid) st.next_id st'.next_id frags ∧
          numbered_from seq (some gid) frags := by
        intro nodes dm st gid seq st' frags h
        simp only [parse_parallel_children] at h
        cases nodes with
        | nil =>
            rw [Prod.mk.injEq] at h
            obtain ⟨hst, hfr⟩ := h
            injection hfr with hfr
            subst hst
            subst hfr
            exact ⟨le_refl _, batch_ok_nil _ _ _, numbered_from_nil seq _ [] rfl⟩
        | cons node rest =>
            rcases hpn : parse_node fetcher fuel node dm st (some gid) with ⟨st1, r1⟩
            simp only [hpn] at h
            cases r1 with
            | error e => simp at h
            | ok parsed =>
                rcases hrest : parse_parallel_children fetcher fuel rest dm st1 gid
                    (assign_sequences (some gid) seq parsed).2 with ⟨st2, r2⟩
                simp only [hrest] at h
                cases r2 with
                | error e => simp at h
                | ok more =>
                    rw [Prod.mk.injEq] at h
                    obtain ⟨hst, hfr⟩ := h
                    injection hfr with hfr
                    subst hst
                    subst hfr
                    obtain ⟨hm1, hb1⟩ := ihn node dm st (some gid) st1 parsed hpn
                    obtain ⟨hm2, hb2, hnum2⟩ := ihpc rest dm st1 gid
                      (assign_sequences (some gid) seq parsed).2 st2 more hrest
                    have hA_same := assign_sequences_same_key (some gid) seq parsed
                    have hcnt := assign_sequences_counter (some gid) seq parsed
                    have hbA : batch_ok (some gid) st.next_id st1.next_id
                        (assign_sequences (some gid) seq parsed).1 := by
                      constructor
                      · intro f' hf'
                        obtain ⟨f, hfm, hpeq⟩ :=
                          assign_sequences_parent (some gid) seq parsed f' hf'
                        rw [hpeq]
                        exact hb1.1 f hfm
                      · intro key hkey
                        unfold numbered_from
                        rw [assign_sequences_other_key (some gid) key hkey seq parsed]
                        exact hb1.2 key hkey
                    refine ⟨le_trans hm1 hm2,
                      batch_ok_append (some gid) st.next_id st1.next_id st2.next_id
                        _ _ hm1 hm2 hbA hb2, ?_⟩
                    apply numbered_from_append seq (some gid) _ more
                    · unfold numbered_from
                      rw [hA_same, renumber_from_renumber_from]
                    · have hlen : (fragments_with_parent (some gid)
                          (assign_sequences (some gid) seq parsed).1).length
                          = (fragments_with_parent (some gid) parsed).length := by
                        rw [hA_same, renumber_from_length]
                      rw [hlen, ← hcnt]
                      exact hnum2
      have hroot : ∀ nodes dm st seq st' frags,
          parse_root_nodes fetcher (fuel + 1) nodes dm st seq = (st', .ok frags) →
          st.next_id ≤ st'.next_id ∧ batch_ok none st.next_id st'.next_id frags ∧
          numbered_from seq none frags := by
        intro nodes dm st seq st' frags h
        simp only [parse_root_nodes] at h
        cases nodes with
        | nil =>
            rw [Prod.mk.injEq] at h
            obtain ⟨hst, hfr⟩ := h
            injection hfr with hfr
            subst hst
            subst hfr
            exact ⟨le_refl _, batch_ok_nil _ _ _, numbered_from_nil seq _ [] rfl⟩
        | cons node rest =>
            by_cases hmach : (node.name == "machine") = true
            · simp only [if_pos hmach] at h
              exact ihr rest dm st seq st' frags h
            · simp only [if_neg hmach] at h
              rcases hpn : parse_node fetcher fuel node dm st none with ⟨st1, r1⟩
              simp only [hpn] at h
              cases r1 with
              | error e => simp at h
              | ok parsed =>
                  rcases hrest : parse_root_nodes fetcher fuel rest dm st1
                      (assign_sequences none seq parsed).2 with ⟨st2, r2⟩
                  simp only [hrest] at h
                  cases r2 with
                  | error e => simp at h
                  | ok more =>
                      rw [Prod.mk.injEq] at h
                      obtain ⟨hst, hfr⟩ := h
                      injection hfr with hfr
                      subst hst
                      subst hfr
                      obtain ⟨hm1, hb1⟩ := ihn node dm st none st1 parsed hpn
                      obtain ⟨hm2, hb2, hnum2⟩ := ihr rest dm st1
                        (assign_sequences none seq parsed).2 st2 more hrest
                      have hA_same := assign_sequences_same_key none seq parsed
                      have hcnt := assign_sequences_counter none seq parsed
                      have hbA : batch_ok none st.next_id st1.next_id
                          (assign_sequences none seq parsed).1 := by
                        constructor
                        · intro f' hf'
                          obtain ⟨f, hfm, hpeq⟩ :=
                            assign_sequences_parent none seq parsed f' hf'
                          rw [hpeq]
                          exact hb1.1 f hfm
                        · intro key hkey
                          unfold numbered_from
                          rw [assign_sequences_other_key none key hkey seq parsed]
                          exact hb1.2 key hkey
                      refine ⟨le_trans hm1 hm2,
                        batch_ok_append none st.next_id st1.next_id st2.next_id
                          _ _ hm1 hm2 hbA hb2, ?_⟩
                      apply numbered_from_append seq none _ more
                      · unfold numbered_from
                        rw [hA_same, renumber_from_renumber_from]
                      · have hlen : (fragments_with_parent none
                            (assign_sequences none seq parsed).1).length
                            = (fragments_with_parent none parsed).length := by
                          rw [hA_same, renumber_from_length]
                        rw [hlen, ← hcnt]
                        exact hnum2
      exact ⟨hnode, hfrag, himp, hfile, hpar, hparc, hroot⟩


/-- **C10**: flattening emits fragments depth-first left-to-right, and for
every parent key (root level `none`, or a group's id) the emission-ordered
sibling list carries sequences 0, 1, 2, …; deeply nested fragments keep the
sequence assigned at their own sibling level because only their own parent
key's list contains them. -/
theorem C10_flatten_sequences (fetcher : Fetcher) (fuel : Nat) (doc : KdlDocument)
    (source_url : Option String) (chain : ParsedChain)
    (h : parse_workflow fetcher fuel doc source_url = .ok chain) :
    ∀ (key : Option Nat) (i : Nat) (f : ParsedFragment),
      (fragments_with_parent key chain.fragments).get? i = some f →
      f.sequence = (i : Int) := by
  unfold parse_workflow at h
  cases hv : get_string_value doc "version" with
  | none =>
            simp only [hv] at h
            exact Except.noConfusion h
  | some version =>
      simp only [hv] at h
      by_cases hver : version ≠ "0.1"
      · rw [if_pos hver] at h
        simp at h
      · rw [if_neg hver] at h
        cases ht : get_string_args doc "triggers" with
        | none =>
            simp only [ht] at h
            exact Except.noConfusion h
        | some triggers =>
            simp only [ht] at h
            cases hcn : doc.find? (fun n => n.name == "chain") with
            | none =>
            simp only [hcn] at h
            exact Except.noConfusion h
            | some chain_node =>
                simp only [hcn] at h
                cases hch : chain_node.children with
                | none =>
            simp only [hch] at h
            exact Except.noConfusion h
                | some chain_doc =>
                    simp only [hch] at h
                    cases hm : get_string_value chain_doc "machine" with
                    | none =>
            simp only [hm] at h
            exact Except.noConfusion h
                    | some default_machine =>
                        simp only [hm] at h
                        generalize hV : (match source_url with
                          | some url => [url]
                          | none => ([] : List String)) = V at h
                        rcases hroot : parse_root_nodes fetcher fuel chain_doc
                            default_machine { next_id := 0, visited := V } 0
                          with ⟨st1, r⟩
                        simp only [hroot, freshId] at h
                        cases r with
                        | error e => simp at h
                        | ok fragments =>
                            injection h with h
                            subst h
                            obtain ⟨-, hb, hnum⟩ :=
                              (parser_seq_inv fetcher fuel).2.2.2.2.2.2 chain_doc
                                default_machine { next_id := 0, visited := V } 0
                                st1 fragments hroot
                            intro key i f hget
                            have hnumk : numbered_from 0 key fragments := by
                              by_cases hk : key = none
                              · subst hk
                                exact hnum
                              · exact hb.2 key hk
                            have hseq := numbered_from_get? 0
                              (fragments_with_parent key fragments) hnumk i f hget
                            simpa using hseq

/-- A concrete workflow: an inline fragment, a parallel group with two
children, and a final inline fragment. -/
def c10Doc : KdlDocument :=
  [ .mk "version" [some "0.1"] none,
    .mk "triggers" [some "push"] none,
    .mk "chain" [] (some
      [ .mk "machine" [some "default"] none,
        .mk "fragment" [] (some [ .mk "run" [some "a"] none ]),
        .mk "parallel" [] (some
          [ .mk "fragment" [] (some [ .mk "run" [some "b"] none ]),
            .mk "fragment" [] (some [ .mk "run" [some "c"] none ]) ]),
        .mk "fragment" [] (some [ .mk "run" [some "d"] none ]) ]) ]

def c10Chain : ParsedChain :=
  { id := 5
    triggers := ["push"]
    default_machine := "default"
    fragments :=
      [ { id := 0, parent_id := none, sequence := 0, fragment_type := .inline,
          run_script := some "a", machine := some "default", is_parallel := false,
          condition := none, source_url := none },
        { id := 1, parent_id := none, sequence := 1, fragment_type := .group,
          run_script := none, machine := none, is_parallel := true,
          condition := none, source_url := none },
        { id := 2, parent_id := some 1, sequence := 0, fragment_type := .inline,
          run_script := some "b", machine := some "default", is_parallel := false,
          condition := none, source_url := none },
        { id := 3, parent_id := some 1, sequence := 1, fragment_type := .inline,
          run_script := some "c", machine := some "default", is_parallel := false,
          condition := none, source_url := none },
        { id := 4, parent_id := none, sequence := 2, fragment_type := .inline,
          run_script := some "d", machine := some "default", is_parallel := false,
          condition := none, source_url := none } ] }

def c10FragC : ParsedFragment :=
  { id := 3, parent_id := some 1, sequence := 1, fragment_type := .inline,
    run_script := some "c", machine := some "default", is_parallel := false,
    condition := none, source_url := none }

theorem C10_flatten_sequences_witness :
    parse_workflow [] 12 c10Doc none = .ok c10Chain ∧
    (fragments_with_parent (some 1) c10Chain.fragments).get? 1 = some c10FragC ∧
    c10FragC.sequence = (1 : Int) :=
  ⟨rfl, rfl,
   C10_flatten_sequences [] 12 c10Doc none c10Chain rfl (some 1) 1 c10FragC rfl⟩

end Vulcan
